import Mathlib

/-!
# MemPool: a fixed-capacity object pool (`MemPool.h`)

A shallow embedding of the class template `MemPool<T>` and a verification of
its allocation protocol.

Modelling conventions.

* The three blocks obtained from `malloc` are lists of cells.  A cell is an
  `Option`: `none` is a cell whose bytes were never written (indeterminate
  after `malloc`), `some x` is a cell holding `x`.  Reading a bookkeeping cell
  that is `none`, or touching a cell outside its block, is a memory fault.
* The pointer `m_uipFreeAdrIdx` walks inside the third block; it is kept as
  its offset (in cells) from the base of that block, and the block itself is
  the field `freeAdrIdxBlock`.
* A handle `T*` is `none` for the null pointer and `some i` for `m_tpPool + i`.
* `g_MaxNumberOfObjectsInPool` is a `const int`; it is the parameter `cap`
  (1000 in the header) and ranges over `0 .. INT_MAX`.
* `m_uiNumOfElements` is an `unsigned`: `++` and `--` wrap modulo `2 ^ 32`.
* `assert(0)` terminates the program: it is the fault `Fault.assertion`.
-/

/-- Largest value of the C++ type `int`. -/
def INT_MAX : Nat := 2 ^ 31 - 1

/-- Number of values of the C++ type `unsigned`. -/
def UINT_MOD : Nat := 2 ^ 32

/-- Ways in which a member function fails to return. -/
inductive Fault where
  /-- The `assert(0)` of `allocateObject` fired. -/
  | assertion
  /-- A cell outside its block, or a bookkeeping cell never written, was accessed. -/
  | memory
  /-- The argument of `free` is not the base of a block. -/
  | invalidFree
  deriving DecidableEq, Repr

/-- The private members of `MemPool<T>`, together with the blocks they point to. -/
structure MemPool (T : Type) where
  /-- Block behind `T *m_tpPool` (empty when no block is owned). -/
  m_tpPool : List (Option T)
  /-- Block behind `bool *m_bpMemInUse`. -/
  m_bpMemInUse : List (Option Bool)
  /-- Member `bool m_bPoolInitialized`. -/
  m_bPoolInitialized : Bool
  /-- Member `unsigned m_uiNumOfElements`. -/
  m_uiNumOfElements : Nat
  /-- Block into which `unsigned *m_uipFreeAdrIdx` points. -/
  freeAdrIdxBlock : List (Option Nat)
  /-- Offset of the pointer `m_uipFreeAdrIdx` from the base of its block. -/
  m_uipFreeAdrIdx : Nat
  deriving DecidableEq, Repr

/-- Constructor `MemPool()`: clears the flag and the counter; the three
pointers are left unset, so no block is owned. -/
def MemPool_ctor {T : Type} : MemPool T :=
  { m_tpPool := []
    m_bpMemInUse := []
    m_bPoolInitialized := false
    m_uiNumOfElements := 0
    freeAdrIdxBlock := []
    m_uipFreeAdrIdx := 0 }

/-- A block of `n` cells as returned by `malloc`: nothing written yet. -/
def malloc (α : Type) (n : Nat) : List (Option α) := List.replicate n none

/-- Body of the `for` loop of `createPool` at loop index `i`:
`*m_uipFreeAdrIdx++ = g_MaxNumberOfObjectsInPool - (i + 1); m_bpMemInUse[i] = false;`. -/
def createPoolBody {T : Type} (cap : Nat) (p : MemPool T) (i : Nat) : MemPool T :=
  { p with
    freeAdrIdxBlock := p.freeAdrIdxBlock.set p.m_uipFreeAdrIdx (some (cap - (i + 1)))
    m_uipFreeAdrIdx := p.m_uipFreeAdrIdx + 1
    m_bpMemInUse := p.m_bpMemInUse.set i (some false) }

/-- Member `createPool()`: when the pool is not initialised, set the flag,
take three fresh blocks of `cap` cells and run the loop for `i = 0 .. cap - 1`.
The counter `m_uiNumOfElements` is not assigned here. -/
def createPool {T : Type} (cap : Nat) (p : MemPool T) : MemPool T :=
  if p.m_bPoolInitialized = false then
    (List.range cap).foldl (createPoolBody cap)
      { p with
        m_bPoolInitialized := true
        m_tpPool := malloc T cap
        m_bpMemInUse := malloc Bool cap
        freeAdrIdxBlock := malloc Nat cap
        m_uipFreeAdrIdx := 0 }
  else p

/-- Member `destroyPool()`: when the pool is initialised, clear the flag and
free the three blocks.  The third `free` is handed
`m_uipFreeAdrIdx - (g_MaxNumberOfObjectsInPool - m_uiNumOfElements)`, the
subtraction in brackets being done on `unsigned`; this is the base of the
block only when the pointer offset equals that difference. -/
def destroyPool {T : Type} (cap : Nat) (p : MemPool T) : Except Fault (MemPool T) :=
  if p.m_bPoolInitialized then
    if p.m_uipFreeAdrIdx = (cap + UINT_MOD - p.m_uiNumOfElements % UINT_MOD) % UINT_MOD then
      .ok { p with
            m_bPoolInitialized := false
            m_tpPool := []
            m_bpMemInUse := []
            freeAdrIdxBlock := [] }
    else .error .invalidFree
  else .ok p

/-- Member `allocateObject(const T &t)`.  On an initialised pool: assert that
the pool is not full, step the stack pointer back and read the index it now
points at, copy `t` into that slot, mark the slot in use, count it, and
return the address of the slot.  On a pool that is not initialised: return
the null pointer. -/
def allocateObject {T : Type} (cap : Nat) (p : MemPool T) (t : T) :
    Except Fault (Option Nat × MemPool T) :=
  if p.m_bPoolInitialized then
    if p.m_uiNumOfElements = cap then .error .assertion
    else
      match p.m_uipFreeAdrIdx with
      | 0 => .error .memory
      | sp + 1 =>
        match p.freeAdrIdxBlock[sp]? with
        | some (some idx) =>
          if idx < p.m_tpPool.length ∧ idx < p.m_bpMemInUse.length then
            .ok (some idx,
              { p with
                m_uipFreeAdrIdx := sp
                m_tpPool := p.m_tpPool.set idx (some t)
                m_bpMemInUse := p.m_bpMemInUse.set idx (some true)
                m_uiNumOfElements := (p.m_uiNumOfElements + 1) % UINT_MOD })
          else .error .memory
        | _ => .error .memory
  else .ok (none, p)

/-- Member `allocateObject()`: the same steps with a default-constructed
local `T t;` as the object copied into the slot. -/
def allocateObject_default {T : Type} [Inhabited T] (cap : Nat) (p : MemPool T) :
    Except Fault (Option Nat × MemPool T) :=
  if p.m_bPoolInitialized then
    if p.m_uiNumOfElements = cap then .error .assertion
    else
      let t : T := default
      match p.m_uipFreeAdrIdx with
      | 0 => .error .memory
      | sp + 1 =>
        match p.freeAdrIdxBlock[sp]? with
        | some (some idx) =>
          if idx < p.m_tpPool.length ∧ idx < p.m_bpMemInUse.length then
            .ok (some idx,
              { p with
                m_uipFreeAdrIdx := sp
                m_tpPool := p.m_tpPool.set idx (some t)
                m_bpMemInUse := p.m_bpMemInUse.set idx (some true)
                m_uiNumOfElements := (p.m_uiNumOfElements + 1) % UINT_MOD })
          else .error .memory
        | _ => .error .memory
  else .ok (none, p)

/-- Member `deallocateObject(T *tpAllocated)`.  On an initialised pool, with
`iIdx = tpAllocated - m_tpPool`: when the pointer is not null and
`m_bpMemInUse[iIdx]` is set, clear that flag, store `iIdx` at the stack
pointer and step it forward, and decrement the counter.  Otherwise nothing is
changed. -/
def deallocateObject {T : Type} (p : MemPool T) (tpAllocated : Option Nat) :
    Except Fault (MemPool T) :=
  if p.m_bPoolInitialized then
    match tpAllocated with
    | none => .ok p
    | some iIdx =>
      match p.m_bpMemInUse[iIdx]? with
      | some (some true) =>
        if p.m_uipFreeAdrIdx < p.freeAdrIdxBlock.length then
          .ok { p with
                m_bpMemInUse := p.m_bpMemInUse.set iIdx (some false)
                freeAdrIdxBlock := p.freeAdrIdxBlock.set p.m_uipFreeAdrIdx (some iIdx)
                m_uipFreeAdrIdx := p.m_uipFreeAdrIdx + 1
                m_uiNumOfElements := (p.m_uiNumOfElements + UINT_MOD - 1) % UINT_MOD }
        else .error .memory
      | some (some false) => .ok p
      | _ => .error .memory
  else .ok p

/-! ## Views of a pool state -/

/-- Entry `occupied[i]` of the occupancy table: `none` when `i` is outside
the table or the cell was never written. -/
def occupied {T : Type} (p : MemPool T) (i : Nat) : Option Bool :=
  match p.m_bpMemInUse[i]? with
  | some c => c
  | none => none

/-- Contents of slot `i` of the slot buffer: `none` when `i` is outside the
buffer or nothing was ever copied into the slot. -/
def slot {T : Type} (p : MemPool T) (i : Nat) : Option T :=
  match p.m_tpPool[i]? with
  | some c => c
  | none => none

/-- The free stack, top first: the cells of the index block below the stack
pointer, the one right under the pointer coming first. -/
def freeStack {T : Type} (p : MemPool T) : List (Option Nat) :=
  (p.freeAdrIdxBlock.take p.m_uipFreeAdrIdx).reverse

/-- Number of slots whose occupancy flag is set. -/
def liveSlots {T : Type} (p : MemPool T) : Nat :=
  p.m_bpMemInUse.count (some true)

/-- State `Active` of the data model, for capacity `cap`: the flag is set,
the three blocks have `cap` cells, every occupancy flag has been written,
`live_count` is the number of occupied slots, the free stack has
`cap - live_count` entries, no entry occurs twice, and the entries are
exactly the indices of the slots that are not occupied. -/
def Active {T : Type} (cap : Nat) (p : MemPool T) : Prop :=
  p.m_bPoolInitialized = true ∧
  cap ≤ INT_MAX ∧
  p.m_tpPool.length = cap ∧
  p.m_bpMemInUse.length = cap ∧
  p.freeAdrIdxBlock.length = cap ∧
  (∀ i, i < cap → occupied p i ≠ none) ∧
  p.m_uiNumOfElements = liveSlots p ∧
  p.m_uipFreeAdrIdx + p.m_uiNumOfElements = cap ∧
  (freeStack p).Nodup ∧
  (∀ c ∈ freeStack p, ∃ i, i < cap ∧ c = some i ∧ occupied p i = some false) ∧
  (∀ i, i < cap → occupied p i = some false → some i ∈ freeStack p)

instance {T : Type} (cap : Nat) (p : MemPool T) : Decidable (Active cap p) := by
  unfold Active; infer_instance

/-- Neither the pop of `allocateObject` nor the push of `deallocateObject`
leaves the index block in state `p`.  The free stack is empty exactly when the
counter equals the capacity; it has at most `cap` entries and the pointer is
inside the block.  When the counter differs from the capacity, so that the
exhaustion guard passes, the pointer is above the base, the cell under it
holds an in-range index, and `allocateObject` returns that slot.
`deallocateObject` on an in-range handle returns, and when the slot is
occupied, so that it pushes, the pointer is strictly inside the block. -/
def StackSafe {T : Type} (cap : Nat) (p : MemPool T) : Prop :=
  (freeStack p = [] ↔ p.m_uiNumOfElements = cap) ∧
  (freeStack p).length ≤ cap ∧
  p.m_uipFreeAdrIdx ≤ p.freeAdrIdxBlock.length ∧
  (p.m_uiNumOfElements ≠ cap →
    0 < p.m_uipFreeAdrIdx ∧
    ∃ i, (freeStack p).head? = some (some i) ∧ i < cap ∧
      ∀ v : T, ∃ q, allocateObject cap p v = .ok (some i, q)) ∧
  (∀ i, i < cap →
    (∃ q, deallocateObject p (some i) = .ok q) ∧
    (occupied p i = some true → p.m_uipFreeAdrIdx < p.freeAdrIdxBlock.length))

/-! ## Sequences of calls -/

/-- One call of a public member function by client code. -/
inductive Op (T : Type) where
  | create
  | destroy
  | alloc_default
  | alloc (t : T)
  | dealloc (tpAllocated : Option Nat)
  deriving DecidableEq, Repr

/-- What a call hands back: nothing for the `void` members, the returned
pointer for the two `allocateObject` overloads. -/
inductive Ret where
  | void
  | handle (h : Option Nat)
  deriving DecidableEq, Repr

/-- Perform one call on pool `p`. -/
def step {T : Type} [Inhabited T] (cap : Nat) (p : MemPool T) :
    Op T → Except Fault (Ret × MemPool T)
  | .create => .ok (.void, createPool cap p)
  | .destroy =>
    match destroyPool cap p with
    | .ok q => .ok (.void, q)
    | .error e => .error e
  | .alloc_default =>
    match allocateObject_default cap p with
    | .ok (h, q) => .ok (.handle h, q)
    | .error e => .error e
  | .alloc t =>
    match allocateObject cap p t with
    | .ok (h, q) => .ok (.handle h, q)
    | .error e => .error e
  | .dealloc h =>
    match deallocateObject p h with
    | .ok q => .ok (.void, q)
    | .error e => .error e

/-- Perform a sequence of calls, recording what each call returned and the
pool state right after it. -/
def runOps {T : Type} [Inhabited T] (cap : Nat) :
    MemPool T → List (Op T) → Except Fault (List (Ret × MemPool T))
  | _, [] => .ok []
  | p, op :: ops =>
    match step cap p op with
    | .error e => .error e
    | .ok (r, q) =>
      match runOps cap q ops with
      | .error e => .error e
      | .ok tr => .ok ((r, q) :: tr)

/-- The call is one of the two `allocateObject` overloads. -/
def isAlloc {T : Type} : Op T → Bool
  | .alloc_default => true
  | .alloc _ => true
  | _ => false

/-- The call is `allocateObject` (either overload) or `deallocateObject`. -/
def isAllocDealloc {T : Type} : Op T → Bool
  | .alloc_default => true
  | .alloc _ => true
  | .dealloc _ => true
  | _ => false

/-- What the client owes at a call made on pool `p`: `allocateObject` is
called with `live_count < capacity`, `deallocateObject` is given the null
pointer or the address of one of the `cap` slots. -/
def callPre {T : Type} (cap : Nat) (p : MemPool T) : Op T → Bool
  | .alloc_default => decide (p.m_uiNumOfElements < cap)
  | .alloc _ => decide (p.m_uiNumOfElements < cap)
  | .dealloc none => true
  | .dealloc (some i) => decide (i < cap)
  | .create => true
  | .destroy => true

/-- Every call of the sequence is made with `callPre` true of the pool state
at the moment of the call.  Nothing is asked of the calls after one that did
not return. -/
def respects {T : Type} [Inhabited T] (cap : Nat) : MemPool T → List (Op T) → Bool
  | _, [] => true
  | p, op :: ops =>
    callPre cap p op &&
      (match step cap p op with
       | .ok (_, q) => respects cap q ops
       | .error _ => true)

/-- The call does not release slot `i`: it is an allocation, or a
deallocation of another handle. -/
def keepsSlot {T : Type} (i : Nat) : Op T → Bool
  | .alloc_default => true
  | .alloc _ => true
  | .dealloc h => decide (h ≠ some i)
  | _ => false

/-- Pool states reached from a newly constructed pool by `createPool`
followed by calls of `allocateObject` and `deallocateObject` that returned. -/
inductive Reached {T : Type} [Inhabited T] (cap : Nat) : MemPool T → Prop where
  | fresh : Reached cap (createPool cap MemPool_ctor)
  | call (p q : MemPool T) (op : Op T) (r : Ret) :
      Reached cap p → isAllocDealloc op = true → step cap p op = .ok (r, q) → Reached cap q

/-! ## Sample states at capacity 3 -/

/-- Capacity 3 after `createPool` and one `allocateObject(7)`: slot 0 holds 7. -/
def pool3_one : MemPool Nat :=
  { m_tpPool := [some 7, none, none]
    m_bpMemInUse := [some true, some false, some false]
    m_bPoolInitialized := true
    m_uiNumOfElements := 1
    freeAdrIdxBlock := [some 2, some 1, some 0]
    m_uipFreeAdrIdx := 2 }

/-- Capacity 3 after `createPool` and `allocateObject` of 7, 8: slot 2 is free. -/
def pool3_two : MemPool Nat :=
  { m_tpPool := [some 7, some 8, none]
    m_bpMemInUse := [some true, some true, some false]
    m_bPoolInitialized := true
    m_uiNumOfElements := 2
    freeAdrIdxBlock := [some 2, some 1, some 0]
    m_uipFreeAdrIdx := 1 }

/-- Capacity 3 after `createPool` and `allocateObject` of 7, 8, 9: the pool is full. -/
def pool3_full : MemPool Nat :=
  { m_tpPool := [some 7, some 8, some 9]
    m_bpMemInUse := [some true, some true, some true]
    m_bPoolInitialized := true
    m_uiNumOfElements := 3
    freeAdrIdxBlock := [some 2, some 1, some 0]
    m_uipFreeAdrIdx := 0 }

/-- Capacity 1 after `createPool` and one `allocateObject(7)`: the pool is full. -/
def pool1_full : MemPool Nat :=
  { m_tpPool := [some 7]
    m_bpMemInUse := [some true]
    m_bPoolInitialized := true
    m_uiNumOfElements := 1
    freeAdrIdxBlock := [some 0]
    m_uipFreeAdrIdx := 0 }

/-- Capacity 3 after `destroyPool` on `pool3_one`: the blocks are released, the
flag is cleared, the counter and the stack pointer keep their values. -/
def pool3_destroyed : MemPool Nat :=
  { m_tpPool := []
    m_bpMemInUse := []
    m_bPoolInitialized := false
    m_uiNumOfElements := 1
    freeAdrIdxBlock := []
    m_uipFreeAdrIdx := 2 }

/-! ## The loop of `createPool` -/

/-- Writing the cell right after a prefix `l` replaces the head of what follows. -/
theorem set_after_init {α : Type} (l r : List α) (x y : α) (k : Nat) (hk : l.length = k) :
    (l ++ x :: r).set k y = l ++ y :: r := by
  subst hk
  induction l with
  | nil => simp
  | cons a l ih => simp [ih]

/-- State of the loop of `createPool` after `k` rounds: the first `k` cells of
the index block hold `cap - 1, cap - 2, ...`, the first `k` occupancy flags
are cleared, the other cells are still unwritten. -/
theorem createPool_loop {T : Type} (cap : Nat) (p : MemPool T) (k : Nat) (hk : k ≤ cap) :
    (List.range k).foldl (createPoolBody cap)
        { p with
          m_bPoolInitialized := true
          m_tpPool := malloc T cap
          m_bpMemInUse := malloc Bool cap
          freeAdrIdxBlock := malloc Nat cap
          m_uipFreeAdrIdx := 0 } =
      { m_tpPool := List.replicate cap none
        m_bpMemInUse := List.replicate k (some false) ++ List.replicate (cap - k) none
        m_bPoolInitialized := true
        m_uiNumOfElements := p.m_uiNumOfElements
        freeAdrIdxBlock :=
          (List.range k).map (fun j => some (cap - (j + 1))) ++ List.replicate (cap - k) none
        m_uipFreeAdrIdx := k } := by
  induction k with
  | zero => simp [malloc]
  | succ k ih =>
    rw [List.range_succ, List.foldl_append, ih (by omega)]
    have hsplit : cap - k = (cap - (k + 1)) + 1 := by omega
    simp only [List.foldl_cons, List.foldl_nil, createPoolBody]
    rw [hsplit, List.replicate_succ' k (some false)]
    simp only [List.replicate_succ]
    rw [set_after_init _ _ _ _ k (by simp), set_after_init _ _ _ _ k (by simp)]
    simp

/-- Closed form of `createPool` on a pool that is not initialised. -/
theorem createPool_eq {T : Type} (cap : Nat) (p : MemPool T)
    (h : p.m_bPoolInitialized = false) :
    createPool cap p =
      { m_tpPool := List.replicate cap none
        m_bpMemInUse := List.replicate cap (some false)
        m_bPoolInitialized := true
        m_uiNumOfElements := p.m_uiNumOfElements
        freeAdrIdxBlock := (List.range cap).reverse.map some
        m_uipFreeAdrIdx := cap } := by
  unfold createPool
  rw [if_pos h, createPool_loop cap p cap (Nat.le_refl _)]
  have hrev : (List.range cap).map (fun j => some (cap - (j + 1))) =
      (List.range cap).reverse.map some := by
    have hr : (List.range cap).reverse = (List.range cap).map (fun x => 0 + cap - 1 - x) := by
      rw [← List.reverse_range' 0 cap, List.range_eq_range']
    rw [hr, List.map_map]
    apply List.map_congr_left
    intro j _
    simp
    omega
  simp [hrev]

/-! ## Basic facts about the views -/

theorem occupied_eq_some {T : Type} (p : MemPool T) (i : Nat) (b : Bool) :
    occupied p i = some b ↔ p.m_bpMemInUse[i]? = some (some b) := by
  unfold occupied
  cases h : p.m_bpMemInUse[i]? with
  | none => simp
  | some c => simp

theorem occupied_lt {T : Type} (p : MemPool T) (i : Nat) (b : Bool)
    (h : occupied p i = some b) : i < p.m_bpMemInUse.length := by
  rw [occupied_eq_some] at h
  exact (List.getElem?_eq_some.mp h).1

/-- The occupancy entry of slot `j` after flag `i` has been written. -/
theorem occupied_set {T : Type} (p q : MemPool T) (i j : Nat) (b : Bool)
    (hq : q.m_bpMemInUse = p.m_bpMemInUse.set i (some b)) :
    occupied q j = if i = j ∧ i < p.m_bpMemInUse.length then some b else occupied p j := by
  unfold occupied
  rw [hq, List.getElem?_set]
  by_cases hij : i = j
  · subst hij
    by_cases hlt : i < p.m_bpMemInUse.length
    · simp [hlt]
    · have hnone : p.m_bpMemInUse[i]? = none := List.getElem?_eq_none (by omega)
      simp [hlt, hnone]
  · simp [hij]

/-- The number of set flags after a cleared flag has been set. -/
theorem count_set_true (l : List (Option Bool)) (i : Nat)
    (h : l[i]? = some (some false)) :
    (l.set i (some true)).count (some true) = l.count (some true) + 1 := by
  obtain ⟨hlt, hv⟩ := List.getElem?_eq_some.mp h
  rw [List.count_set _ _ _ _ hlt, hv]
  simp

/-- The number of set flags after a set flag has been cleared. -/
theorem count_set_false (l : List (Option Bool)) (i : Nat)
    (h : l[i]? = some (some true)) :
    (l.set i (some false)).count (some true) + 1 = l.count (some true) := by
  obtain ⟨hlt, hv⟩ := List.getElem?_eq_some.mp h
  rw [List.count_set _ _ _ _ hlt, hv]
  have hpos : 0 < l.count (some true) := by
    rw [List.count_pos_iff]
    rw [← hv]
    exact List.getElem_mem hlt
  simp
  omega

/-- The free stack of a state whose pointer is one past cell `s`. -/
theorem freeStack_succ {T : Type} (p : MemPool T) (s : Nat) (c : Option Nat)
    (hsp : p.m_uipFreeAdrIdx = s + 1) (hc : p.freeAdrIdxBlock[s]? = some c) :
    freeStack p = c :: (p.freeAdrIdxBlock.take s).reverse := by
  unfold freeStack
  rw [hsp, List.take_succ, hc]
  simp

/-! ## Allocation and deallocation on an `Active` state -/

/-- The counter does not wrap when it is incremented below the capacity. -/
theorem counter_succ_mod (cap n : Nat) (hcap : cap ≤ INT_MAX) (hn : n < cap) :
    (n + 1) % UINT_MOD = n + 1 := by
  apply Nat.mod_eq_of_lt
  unfold INT_MAX at hcap
  unfold UINT_MOD
  omega

/-- The counter does not wrap when a positive value is decremented. -/
theorem counter_pred_mod (cap n : Nat) (hcap : cap ≤ INT_MAX) (hn : n ≤ cap) (hpos : 0 < n) :
    (n + UINT_MOD - 1) % UINT_MOD = n - 1 := by
  unfold INT_MAX at hcap
  unfold UINT_MOD
  omega

/-- On an `Active` state that is not full, `allocateObject` pops the top of the
free stack, writes the slot and its flag, counts the object, and the state
reached is `Active` again. -/
theorem allocateObject_active {T : Type} (cap : Nat) (p : MemPool T) (t : T)
    (hA : Active cap p) (hlt : p.m_uiNumOfElements < cap) :
    ∃ i rest q, freeStack p = some i :: rest ∧ i < cap ∧ occupied p i = some false ∧
      allocateObject cap p t = .ok (some i, q) ∧ Active cap q ∧ freeStack q = rest ∧
      q.m_bpMemInUse = p.m_bpMemInUse.set i (some true) ∧
      q.m_tpPool = p.m_tpPool.set i (some t) ∧
      q.m_uiNumOfElements = p.m_uiNumOfElements + 1 ∧
      q.freeAdrIdxBlock = p.freeAdrIdxBlock ∧
      q.m_uipFreeAdrIdx + 1 = p.m_uipFreeAdrIdx := by
  obtain ⟨hinit, hcap, hpool, huse, hblk, hwr, hnum, hsp, hnd, hfree, hall⟩ := hA
  obtain ⟨s, hs⟩ : ∃ s, p.m_uipFreeAdrIdx = s + 1 := ⟨p.m_uipFreeAdrIdx - 1, by omega⟩
  have hslt : s < p.freeAdrIdxBlock.length := by omega
  obtain ⟨c, hc⟩ : ∃ c, p.freeAdrIdxBlock[s]? = some c := ⟨_, List.getElem?_eq_getElem hslt⟩
  have hfs := freeStack_succ p s c hs hc
  obtain ⟨i, hi, hci, hocc⟩ := hfree c (by rw [hfs]; simp)
  subst hci
  have hmod := counter_succ_mod cap p.m_uiNumOfElements hcap hlt
  have hrest : (p.freeAdrIdxBlock.take s).reverse =
      freeStack { p with
        m_uipFreeAdrIdx := s
        m_tpPool := p.m_tpPool.set i (some t)
        m_bpMemInUse := p.m_bpMemInUse.set i (some true)
        m_uiNumOfElements := p.m_uiNumOfElements + 1 } := rfl
  rw [hfs, List.nodup_cons] at hnd
  refine ⟨i, _, { p with
        m_uipFreeAdrIdx := s
        m_tpPool := p.m_tpPool.set i (some t)
        m_bpMemInUse := p.m_bpMemInUse.set i (some true)
        m_uiNumOfElements := p.m_uiNumOfElements + 1 }, hfs, hi, hocc, ?_, ?_, rfl, rfl, rfl, rfl,
        rfl, hs.symm⟩
  · unfold allocateObject
    simp [hinit, Nat.ne_of_lt hlt, hs, hc, hpool, huse, hi, hmod]
  · refine ⟨hinit, hcap, by simpa using hpool, by simpa using huse, hblk, ?_, ?_, ?_, ?_, ?_, ?_⟩
    · intro j hj
      rw [occupied_set p _ i j true rfl]
      split
      · simp
      · exact hwr j hj
    · show p.m_uiNumOfElements + 1 = (p.m_bpMemInUse.set i (some true)).count (some true)
      rw [count_set_true _ _ ((occupied_eq_some p i false).mp hocc), hnum]
      rfl
    · show s + (p.m_uiNumOfElements + 1) = cap
      omega
    · rw [← hrest]
      exact hnd.2
    · intro c hcmem
      rw [← hrest] at hcmem
      obtain ⟨j, hj, hcj, hoj⟩ := hfree c (by rw [hfs]; exact List.mem_cons_of_mem _ hcmem)
      refine ⟨j, hj, hcj, ?_⟩
      rw [occupied_set p _ i j true rfl]
      have hne : i ≠ j := by
        intro hij
        subst hij
        subst hcj
        exact hnd.1 hcmem
      simp [hne, hoj]
    · intro j hj hoj
      rw [occupied_set p _ i j true rfl] at hoj
      by_cases hij : i = j
      · subst hij
        simp [huse, hi] at hoj
      · simp [hij] at hoj
        have hmem := hall j hj hoj
        rw [hfs] at hmem
        rw [← hrest]
        rcases List.mem_cons.mp hmem with h | h
        · exact absurd (Option.some.inj h).symm hij
        · exact h

/-- Cells below the stack pointer are untouched by a store at the pointer. -/
theorem take_set_self {α : Type} (l : List α) (n : Nat) (a : α) :
    (l.set n a).take n = l.take n := by
  rw [List.set_take]
  exact List.set_eq_of_length_le (by simp)

/-- On an `Active` state, `deallocateObject` on the handle of an occupied slot
clears its flag, pushes its index, uncounts the object, and the state reached
is `Active` again. -/
theorem deallocateObject_active_occupied {T : Type} (cap : Nat) (p : MemPool T) (i : Nat)
    (hA : Active cap p) (hocc : occupied p i = some true) :
    ∃ q, deallocateObject p (some i) = .ok q ∧ Active cap q ∧
      freeStack q = some i :: freeStack p ∧
      q.m_bpMemInUse = p.m_bpMemInUse.set i (some false) ∧
      q.m_tpPool = p.m_tpPool ∧
      q.m_uiNumOfElements + 1 = p.m_uiNumOfElements ∧
      q.freeAdrIdxBlock = p.freeAdrIdxBlock.set p.m_uipFreeAdrIdx (some i) ∧
      q.m_uipFreeAdrIdx = p.m_uipFreeAdrIdx + 1 := by
  obtain ⟨hinit, hcap, hpool, huse, hblk, hwr, hnum, hsp, hnd, hfree, hall⟩ := hA
  have hget := (occupied_eq_some p i true).mp hocc
  have hi : i < cap := huse ▸ occupied_lt p i true hocc
  have hcnt := count_set_false _ _ hget
  have hpos : 0 < p.m_uiNumOfElements := by
    rw [hnum]
    unfold liveSlots
    omega
  have hmod := counter_pred_mod cap p.m_uiNumOfElements hcap (by omega) hpos
  have hsplt : p.m_uipFreeAdrIdx < p.freeAdrIdxBlock.length := by omega
  have hfs : freeStack { p with
        m_bpMemInUse := p.m_bpMemInUse.set i (some false)
        freeAdrIdxBlock := p.freeAdrIdxBlock.set p.m_uipFreeAdrIdx (some i)
        m_uipFreeAdrIdx := p.m_uipFreeAdrIdx + 1
        m_uiNumOfElements := p.m_uiNumOfElements - 1 } = some i :: freeStack p := by
    rw [freeStack_succ _ p.m_uipFreeAdrIdx (some i) rfl (List.getElem?_set_self hsplt)]
    show some i :: ((p.freeAdrIdxBlock.set p.m_uipFreeAdrIdx (some i)).take
      p.m_uipFreeAdrIdx).reverse = _
    rw [take_set_self]
    rfl
  have hnotin : some i ∉ freeStack p := by
    intro hmem
    obtain ⟨j, _, hcj, hoj⟩ := hfree _ hmem
    rw [← Option.some.inj hcj, hocc] at hoj
    simp at hoj
  refine ⟨{ p with
        m_bpMemInUse := p.m_bpMemInUse.set i (some false)
        freeAdrIdxBlock := p.freeAdrIdxBlock.set p.m_uipFreeAdrIdx (some i)
        m_uipFreeAdrIdx := p.m_uipFreeAdrIdx + 1
        m_uiNumOfElements := p.m_uiNumOfElements - 1 }, ?_, ?_, hfs, rfl, rfl, ?_, rfl, rfl⟩
  · unfold deallocateObject
    simp [hinit, hget, hsplt, hmod]
  · refine ⟨hinit, hcap, hpool, by simpa using huse, by simpa using hblk, ?_, ?_, ?_, ?_, ?_, ?_⟩
    · intro j hj
      rw [occupied_set p _ i j false rfl]
      split
      · simp
      · exact hwr j hj
    · show p.m_uiNumOfElements - 1 = (p.m_bpMemInUse.set i (some false)).count (some true)
      rw [hnum]
      unfold liveSlots
      omega
    · show p.m_uipFreeAdrIdx + 1 + (p.m_uiNumOfElements - 1) = cap
      omega
    · rw [hfs, List.nodup_cons]
      exact ⟨hnotin, hnd⟩
    · intro c hcmem
      rw [hfs] at hcmem
      rcases List.mem_cons.mp hcmem with h | h
      · refine ⟨i, hi, h, ?_⟩
        rw [occupied_set p _ i i false rfl]
        simp [huse, hi]
      · obtain ⟨j, hj, hcj, hoj⟩ := hfree c h
        refine ⟨j, hj, hcj, ?_⟩
        rw [occupied_set p _ i j false rfl]
        split
        · rfl
        · exact hoj
    · intro j hj hoj
      rw [hfs]
      by_cases hij : i = j
      · subst hij
        exact List.mem_cons_self _ _
      · rw [occupied_set p _ i j false rfl] at hoj
        simp [hij] at hoj
        exact List.mem_cons_of_mem _ (hall j hj hoj)
  · show p.m_uiNumOfElements - 1 + 1 = p.m_uiNumOfElements
    omega

/-- On an initialised pool, `deallocateObject` on the handle of a slot whose
flag is cleared returns without changing anything. -/
theorem deallocateObject_free {T : Type} (p : MemPool T) (i : Nat)
    (hocc : occupied p i = some false) :
    deallocateObject p (some i) = .ok p := by
  have hget := (occupied_eq_some p i false).mp hocc
  unfold deallocateObject
  split
  · simp [hget]
  · rfl

/-- The null handle changes nothing. -/
theorem deallocateObject_null {T : Type} (p : MemPool T) :
    deallocateObject p none = .ok p := by
  unfold deallocateObject
  split <;> rfl

/-- In an `Active` state every in-range slot is either occupied or free. -/
theorem Active.occupied_cases {T : Type} {cap : Nat} {p : MemPool T} (hA : Active cap p)
    (i : Nat) (hi : i < cap) : occupied p i = some true ∨ occupied p i = some false := by
  have h := hA.2.2.2.2.2.1 i hi
  cases hc : occupied p i with
  | none => exact absurd hc h
  | some b => cases b <;> simp

/-- The two overloads of `allocateObject` run the same steps. -/
theorem allocateObject_default_eq {T : Type} [Inhabited T] (cap : Nat) (p : MemPool T) :
    allocateObject_default cap p = allocateObject cap p default := rfl

/-! ## The freshly created pool -/

/-- The state `createPool` leaves behind on a newly constructed pool. -/
theorem createPool_ctor {T : Type} (cap : Nat) :
    createPool cap (MemPool_ctor : MemPool T) =
      { m_tpPool := List.replicate cap none
        m_bpMemInUse := List.replicate cap (some false)
        m_bPoolInitialized := true
        m_uiNumOfElements := 0
        freeAdrIdxBlock := (List.range cap).reverse.map some
        m_uipFreeAdrIdx := cap } :=
  createPool_eq cap MemPool_ctor rfl

/-- The free stack of the freshly created pool: `0` on top, then `1`, and so on. -/
theorem freeStack_createPool_ctor {T : Type} (cap : Nat) :
    freeStack (createPool cap (MemPool_ctor : MemPool T)) = (List.range cap).map some := by
  rw [createPool_ctor]
  unfold freeStack
  simp [List.take_of_length_le]

/-- Every flag of the freshly created pool is cleared. -/
theorem occupied_createPool_ctor {T : Type} (cap i : Nat) (hi : i < cap) :
    occupied (createPool cap (MemPool_ctor : MemPool T)) i = some false := by
  rw [createPool_ctor, occupied_eq_some]
  simp [hi]

/-- The freshly created pool is `Active`. -/
theorem Active_createPool_ctor {T : Type} (cap : Nat) (hmax : cap ≤ INT_MAX) :
    Active cap (createPool cap (MemPool_ctor : MemPool T)) := by
  refine ⟨?_, hmax, ?_, ?_, ?_, ?_, ?_, ?_, ?_, ?_, ?_⟩
  · rw [createPool_ctor]
  · rw [createPool_ctor]; simp
  · rw [createPool_ctor]; simp
  · rw [createPool_ctor]; simp
  · intro i hi
    rw [occupied_createPool_ctor cap i hi]
    simp
  · rw [createPool_ctor]
    simp [liveSlots, List.count_replicate]
  · rw [createPool_ctor]
    rfl
  · rw [freeStack_createPool_ctor]
    exact (List.nodup_range cap).map (Option.some_injective _)
  · intro c hc
    rw [freeStack_createPool_ctor, List.mem_map] at hc
    obtain ⟨i, hi, hci⟩ := hc
    exact ⟨i, List.mem_range.mp hi, hci.symm, occupied_createPool_ctor cap i (List.mem_range.mp hi)⟩
  · intro i hi _
    rw [freeStack_createPool_ctor]
    exact List.mem_map.mpr ⟨i, List.mem_range.mpr hi, rfl⟩

/-! ## Contracts of the single operations -/

/-- The contents of slot `j` after slot `i` has been written. -/
theorem slot_set {T : Type} (p q : MemPool T) (i j : Nat) (v : T)
    (hq : q.m_tpPool = p.m_tpPool.set i (some v)) :
    slot q j = if i = j ∧ i < p.m_tpPool.length then some v else slot p j := by
  unfold slot
  rw [hq, List.getElem?_set]
  by_cases hij : i = j
  · subst hij
    by_cases hlt : i < p.m_tpPool.length
    · simp [hlt]
    · have hnone : p.m_tpPool[i]? = none := List.getElem?_eq_none (by omega)
      simp [hlt, hnone]
  · simp [hij]

/-- C1: on an Active pool state with live_count < capacity whose free stack has
top index i, allocateObject(v) returns the handle of slot i, removes i from the
top of the free stack, sets occupied[i], increases live_count by exactly 1 and
leaves slot i holding v; the overload without argument does the same with the
default value of the element type. -/
theorem allocateObject_contract {T : Type} [Inhabited T] (cap : Nat) (p : MemPool T)
    (i : Nat) (v : T) (hA : Active cap p) (hlt : p.m_uiNumOfElements < cap)
    (htop : (freeStack p).head? = some (some i)) :
    (∃ q, allocateObject cap p v = .ok (some i, q) ∧
      freeStack q = (freeStack p).tail ∧ occupied q i = some true ∧
      q.m_uiNumOfElements = p.m_uiNumOfElements + 1 ∧ slot q i = some v) ∧
    (∃ q, allocateObject_default cap p = .ok (some i, q) ∧
      freeStack q = (freeStack p).tail ∧ occupied q i = some true ∧
      q.m_uiNumOfElements = p.m_uiNumOfElements + 1 ∧ slot q i = some (default : T)) := by
  have key : ∀ t : T, ∃ q, allocateObject cap p t = .ok (some i, q) ∧
      freeStack q = (freeStack p).tail ∧ occupied q i = some true ∧
      q.m_uiNumOfElements = p.m_uiNumOfElements + 1 ∧ slot q i = some t := by
    intro t
    obtain ⟨k, rest, q, hfs, hk, _, hrun, _, hrest, huse, hpool, hnum, _, _⟩ :=
      allocateObject_active cap p t hA hlt
    have hki : k = i := by
      rw [hfs] at htop
      simpa using htop
    subst hki
    refine ⟨q, hrun, ?_, ?_, hnum, ?_⟩
    · rw [hrest, hfs]
      rfl
    · rw [occupied_set p q k k true huse]
      simp [hA.2.2.2.1, hk]
    · rw [slot_set p q k k t hpool]
      simp [hA.2.2.1, hk]
  exact ⟨key v, by rw [allocateObject_default_eq]; exact key default⟩

/-- C1 at capacity 3 on the freshly created pool, storing 7: the top index is 0. -/
theorem allocateObject_contract_witness :
    Active 3 (createPool 3 (MemPool_ctor : MemPool Nat)) ∧
    (createPool 3 (MemPool_ctor : MemPool Nat)).m_uiNumOfElements < 3 ∧
    (freeStack (createPool 3 (MemPool_ctor : MemPool Nat))).head? = some (some 0) ∧
    ((∃ q, allocateObject 3 (createPool 3 (MemPool_ctor : MemPool Nat)) 7 = .ok (some 0, q) ∧
      freeStack q = (freeStack (createPool 3 (MemPool_ctor : MemPool Nat))).tail ∧
      occupied q 0 = some true ∧
      q.m_uiNumOfElements = (createPool 3 (MemPool_ctor : MemPool Nat)).m_uiNumOfElements + 1 ∧
      slot q 0 = some 7) ∧
    (∃ q, allocateObject_default 3 (createPool 3 (MemPool_ctor : MemPool Nat)) = .ok (some 0, q) ∧
      freeStack q = (freeStack (createPool 3 (MemPool_ctor : MemPool Nat))).tail ∧
      occupied q 0 = some true ∧
      q.m_uiNumOfElements = (createPool 3 (MemPool_ctor : MemPool Nat)).m_uiNumOfElements + 1 ∧
      slot q 0 = some (default : Nat))) :=
  ⟨by decide, by decide, by decide,
    allocateObject_contract 3 (createPool 3 MemPool_ctor) 0 7 (by decide) (by decide) (by decide)⟩

/-- C2: on an Active pool state, deallocateObject on the handle of an in-range
occupied slot i clears occupied[i], pushes i on top of the free stack, decreases
live_count by exactly 1, and leaves the contents of every slot and the
occupancy of every other slot unchanged. -/
theorem deallocateObject_contract {T : Type} (cap : Nat) (p : MemPool T) (i : Nat)
    (hA : Active cap p) (hi : i < cap) (hocc : occupied p i = some true) :
    ∃ q, deallocateObject p (some i) = .ok q ∧
      occupied q i = some false ∧
      freeStack q = some i :: freeStack p ∧
      q.m_uiNumOfElements + 1 = p.m_uiNumOfElements ∧
      q.m_tpPool = p.m_tpPool ∧ (∀ j, slot q j = slot p j) ∧
      (∀ j, j ≠ i → occupied q j = occupied p j) := by
  obtain ⟨q, hrun, _, hfs, huse, hpool, hnum, _, _⟩ :=
    deallocateObject_active_occupied cap p i hA hocc
  refine ⟨q, hrun, ?_, hfs, hnum, hpool, ?_, ?_⟩
  · rw [occupied_set p q i i false huse]
    simp [hA.2.2.2.1, hi]
  · intro j
    unfold slot
    rw [hpool]
  · intro j hj
    rw [occupied_set p q i j false huse]
    simp [Ne.symm hj]

/-- C2 at capacity 3, on the pool in which slot 0 holds 7 and slots 1, 2 are free. -/
theorem deallocateObject_contract_witness :
    Active 3 pool3_one ∧ 0 < 3 ∧ occupied pool3_one 0 = some true ∧
    ∃ q, deallocateObject pool3_one (some 0) = .ok q ∧
      occupied q 0 = some false ∧
      freeStack q = some 0 :: freeStack pool3_one ∧
      q.m_uiNumOfElements + 1 = pool3_one.m_uiNumOfElements ∧
      q.m_tpPool = pool3_one.m_tpPool ∧ (∀ j, slot q j = slot pool3_one j) ∧
      (∀ j, j ≠ 0 → occupied q j = occupied pool3_one j) :=
  ⟨by decide, by decide, by decide,
    deallocateObject_contract 3 pool3_one 0 (by decide) (by decide) (by decide)⟩

/-- C3: createPool on a newly constructed pool of capacity N yields an Active
state with live_count 0, every occupancy flag cleared, and a free stack that
holds exactly N entries, each index 0..N-1 exactly once (0 on top, ascending);
this holds for every capacity in the range of `int`, N = 0 included. -/
theorem createPool_contract {T : Type} (cap : Nat) (hmax : cap ≤ INT_MAX) :
    Active cap (createPool cap (MemPool_ctor : MemPool T)) ∧
    (createPool cap (MemPool_ctor : MemPool T)).m_bPoolInitialized = true ∧
    (createPool cap (MemPool_ctor : MemPool T)).m_uiNumOfElements = 0 ∧
    (∀ i, i < cap → occupied (createPool cap (MemPool_ctor : MemPool T)) i = some false) ∧
    freeStack (createPool cap (MemPool_ctor : MemPool T)) = (List.range cap).map some ∧
    (freeStack (createPool cap (MemPool_ctor : MemPool T))).length = cap ∧
    (freeStack (createPool cap (MemPool_ctor : MemPool T))).Nodup ∧
    (∀ i, i < cap → some i ∈ freeStack (createPool cap (MemPool_ctor : MemPool T))) := by
  refine ⟨Active_createPool_ctor cap hmax, ?_, ?_, ?_, freeStack_createPool_ctor cap, ?_,
    (Active_createPool_ctor cap hmax).2.2.2.2.2.2.2.2.1, ?_⟩
  · rw [createPool_ctor]
  · rw [createPool_ctor]
  · exact fun i hi => occupied_createPool_ctor cap i hi
  · rw [freeStack_createPool_ctor]
    simp
  · intro i hi
    rw [freeStack_createPool_ctor]
    exact List.mem_map.mpr ⟨i, List.mem_range.mpr hi, rfl⟩

/-- C3 at the capacity of the header, 1000. -/
theorem createPool_contract_witness :
    1000 ≤ INT_MAX ∧
    (createPool 1000 (MemPool_ctor : MemPool Nat)).m_uiNumOfElements = 0 ∧
    (freeStack (createPool 1000 (MemPool_ctor : MemPool Nat))).length = 1000 :=
  ⟨by decide, (createPool_contract 1000 (by decide)).2.2.1,
    (createPool_contract 1000 (by decide)).2.2.2.2.2.1⟩

/-! ## Single calls on an `Active` state -/

/-- In an `Active` state the free stack has as many entries as the stack
pointer is cells above the base of its block. -/
theorem Active.length_freeStack {T : Type} {cap : Nat} {p : MemPool T} (hA : Active cap p) :
    (freeStack p).length = p.m_uipFreeAdrIdx := by
  obtain ⟨_, _, _, _, hblk, _, _, hsp, _, _, _⟩ := hA
  unfold freeStack
  rw [List.length_reverse, List.length_take]
  omega

/-- In an `Active` state the counter is at most the capacity. -/
theorem Active.counter_le {T : Type} {cap : Nat} {p : MemPool T} (hA : Active cap p) :
    p.m_uiNumOfElements ≤ cap := by
  have := hA.2.2.2.2.2.2.2.1
  omega

/-- An allocating call on an `Active` state that is not full: what it returns
and the state it leaves. -/
theorem step_alloc_active {T : Type} [Inhabited T] (cap : Nat) (p : MemPool T) (op : Op T)
    (hA : Active cap p) (hlt : p.m_uiNumOfElements < cap) (hop : isAlloc op = true) :
    ∃ i rest q t, freeStack p = some i :: rest ∧ i < cap ∧ occupied p i = some false ∧
      step cap p op = .ok (.handle (some i), q) ∧ Active cap q ∧ freeStack q = rest ∧
      q.m_bpMemInUse = p.m_bpMemInUse.set i (some true) ∧
      q.m_tpPool = p.m_tpPool.set i (some t) ∧
      q.m_uiNumOfElements = p.m_uiNumOfElements + 1 := by
  cases op with
  | alloc_default =>
    obtain ⟨i, rest, q, hfs, hi, hocc, hrun, hAq, hrest, huse, hpool, hnum, _, _⟩ :=
      allocateObject_active cap p (default : T) hA hlt
    refine ⟨i, rest, q, default, hfs, hi, hocc, ?_, hAq, hrest, huse, hpool, hnum⟩
    simp [step, allocateObject_default_eq, hrun]
  | alloc t =>
    obtain ⟨i, rest, q, hfs, hi, hocc, hrun, hAq, hrest, huse, hpool, hnum, _, _⟩ :=
      allocateObject_active cap p t hA hlt
    refine ⟨i, rest, q, t, hfs, hi, hocc, ?_, hAq, hrest, huse, hpool, hnum⟩
    simp [step, hrun]
  | create => simp [isAlloc] at hop
  | destroy => simp [isAlloc] at hop
  | dealloc h => simp [isAlloc] at hop

/-- A deallocating call on an `Active` state, given the null pointer or the
address of a slot: it returns, the state stays `Active`, the slot buffer is
untouched, and only the flag of the slot addressed can change. -/
theorem step_dealloc_active {T : Type} [Inhabited T] (cap : Nat) (p : MemPool T)
    (h : Option Nat) (hA : Active cap p) (hpre : callPre cap p (.dealloc h) = true) :
    ∃ q, step cap p (.dealloc h) = .ok (.void, q) ∧ Active cap q ∧
      q.m_tpPool = p.m_tpPool ∧ (∀ j, h ≠ some j → occupied q j = occupied p j) := by
  cases h with
  | none =>
    exact ⟨p, by simp [step, deallocateObject_null], hA, rfl, fun _ _ => rfl⟩
  | some i =>
    have hi : i < cap := by simpa [callPre] using hpre
    rcases hA.occupied_cases i hi with hocc | hocc
    · obtain ⟨q, hrun, hAq, _, huse, hpool, _, _, _⟩ :=
        deallocateObject_active_occupied cap p i hA hocc
      refine ⟨q, by simp [step, hrun], hAq, hpool, ?_⟩
      intro j hj
      rw [occupied_set p q i j false huse]
      have hne : i ≠ j := fun hij => hj (by rw [hij])
      simp [hne]
    · exact ⟨p, by simp [step, deallocateObject_free p i hocc], hA, rfl, fun _ _ => rfl⟩

/-! ## Allocation order on a fresh pool -/

/-- Allocations on an `Active` state whose free stack reads `a, a + 1, ...`
from the top return the slots `a, a + 1, ...` in this order. -/
theorem runOps_alloc_ascending {T : Type} [Inhabited T] (cap : Nat) :
    ∀ (ops : List (Op T)) (p : MemPool T) (a n : Nat),
      Active cap p → freeStack p = (List.range' a n).map some →
      (∀ op ∈ ops, isAlloc op = true) → ops.length ≤ n →
      ∃ tr, runOps cap p ops = .ok tr ∧
        tr.map Prod.fst = (List.range' a ops.length).map (fun k => Ret.handle (some k)) := by
  intro ops
  induction ops with
  | nil =>
    intro p a n _ _ _ _
    exact ⟨[], rfl, rfl⟩
  | cons op ops ih =>
    intro p a n hA hfs hall hlen
    obtain ⟨m, hm⟩ : ∃ m, n = m + 1 := ⟨n - 1, by simp at hlen; omega⟩
    subst hm
    have hlt : p.m_uiNumOfElements < cap := by
      have h1 := hA.length_freeStack
      have h2 := hA.2.2.2.2.2.2.2.1
      rw [hfs] at h1
      simp at h1
      omega
    obtain ⟨i, rest, q, t, hfs2, _, _, hstep, hAq, hrest, _, _, _⟩ :=
      step_alloc_active cap p op hA hlt (hall op (List.mem_cons_self _ _))
    rw [hfs, List.range'_succ, List.map_cons, List.cons.injEq] at hfs2
    obtain ⟨hia, hrest2⟩ := hfs2
    have hia2 : a = i := Option.some.inj hia
    subst hia2
    obtain ⟨tr, hrun, hret⟩ := ih q (a + 1) m hAq (by rw [hrest, ← hrest2])
      (fun o ho => hall o (List.mem_cons_of_mem _ ho)) (by simp at hlen; omega)
    refine ⟨(.handle (some a), q) :: tr, ?_, ?_⟩
    · simp [runOps, hstep, hrun]
    · simp [hret, List.range'_succ]

/-- C4: on a freshly initialised pool of capacity N, k successive calls of
allocateObject (either overload, any values), k <= N, with no deallocation in
between, all return, and the j-th of them returns the handle of slot j-1: the
handles are those of slots 0, 1, ..., k-1 in this order. -/
theorem allocateObject_ascending {T : Type} [Inhabited T] (cap : Nat) (ops : List (Op T))
    (hmax : cap ≤ INT_MAX) (hall : ∀ op ∈ ops, isAlloc op = true) (hlen : ops.length ≤ cap) :
    ∃ tr, runOps cap (createPool cap MemPool_ctor) ops = .ok tr ∧
      tr.map Prod.fst = (List.range ops.length).map (fun k => Ret.handle (some k)) ∧
      ∀ k, k < ops.length → (tr.map Prod.fst)[k]? = some (Ret.handle (some k)) := by
  obtain ⟨tr, hrun, hret⟩ := runOps_alloc_ascending cap ops (createPool cap MemPool_ctor) 0 cap
    (Active_createPool_ctor cap hmax)
    (by rw [freeStack_createPool_ctor, List.range_eq_range']) hall hlen
  rw [← List.range_eq_range'] at hret
  refine ⟨tr, hrun, hret, ?_⟩
  intro k hk
  rw [hret]
  simp [hk]

/-- C4 at capacity 3 with three allocations, the second by the overload
without argument. -/
theorem allocateObject_ascending_witness :
    3 ≤ INT_MAX ∧
    ∃ tr, runOps 3 (createPool 3 (MemPool_ctor : MemPool Nat))
        [.alloc 7, .alloc_default, .alloc 9] = .ok tr ∧
      tr.map Prod.fst = (List.range 3).map (fun k => Ret.handle (some k)) ∧
      ∀ k, k < 3 → (tr.map Prod.fst)[k]? = some (Ret.handle (some k)) :=
  ⟨by decide, allocateObject_ascending 3 [.alloc 7, .alloc_default, .alloc 9]
    (by decide) (by decide) (by decide)⟩

/-! ## States reached by allocate / deallocate calls -/

/-- On an initialised pool whose counter equals the capacity, an allocating
call runs into the assertion. -/
theorem step_alloc_full {T : Type} [Inhabited T] (cap : Nat) (p : MemPool T) (op : Op T)
    (hinit : p.m_bPoolInitialized = true) (hfull : p.m_uiNumOfElements = cap)
    (hop : isAlloc op = true) : step cap p op = .error .assertion := by
  cases op with
  | alloc_default => simp [step, allocateObject_default, hinit, hfull]
  | alloc t => simp [step, allocateObject, hinit, hfull]
  | create => simp [isAlloc] at hop
  | destroy => simp [isAlloc] at hop
  | dealloc h => simp [isAlloc] at hop

/-- On an initialised pool, `deallocateObject` on a pointer whose flag cannot
be read does not return. -/
theorem deallocateObject_fault {T : Type} (p : MemPool T) (i : Nat)
    (hinit : p.m_bPoolInitialized = true) (hocc : occupied p i = none) :
    deallocateObject p (some i) = .error .memory := by
  unfold occupied at hocc
  unfold deallocateObject
  cases hc : p.m_bpMemInUse[i]? with
  | none => simp [hinit, hc]
  | some c =>
    rw [hc] at hocc
    subst hocc
    simp [hinit, hc]

/-- A call of `allocateObject` or `deallocateObject` that returns on an
`Active` state leaves an `Active` state. -/
theorem step_active {T : Type} [Inhabited T] (cap : Nat) (p q : MemPool T) (op : Op T)
    (r : Ret) (hA : Active cap p) (hop : isAllocDealloc op = true)
    (hstep : step cap p op = .ok (r, q)) : Active cap q := by
  have halloc : isAlloc op = true → Active cap q := by
    intro hal
    by_cases hfull : p.m_uiNumOfElements = cap
    · rw [step_alloc_full cap p op hA.1 hfull hal] at hstep
      cases hstep
    · have hlt : p.m_uiNumOfElements < cap := Nat.lt_of_le_of_ne hA.counter_le hfull
      obtain ⟨i, rest, s, t, _, _, _, hs, hAs, _⟩ := step_alloc_active cap p op hA hlt hal
      rw [hs] at hstep
      cases hstep
      exact hAs
  cases op with
  | alloc_default => exact halloc rfl
  | alloc t => exact halloc rfl
  | create => simp [isAllocDealloc] at hop
  | destroy => simp [isAllocDealloc] at hop
  | dealloc h =>
    have hpre : callPre cap p (.dealloc h) = true := by
      cases h with
      | none => rfl
      | some i =>
        cases hocc : occupied p i with
        | none =>
          simp [step, deallocateObject_fault p i hA.1 hocc] at hstep
        | some b =>
          have := occupied_lt p i b hocc
          have hlen := hA.2.2.2.1
          simp [callPre]
          omega
    obtain ⟨s, hs, hAs, _⟩ := step_dealloc_active cap p h hA hpre
    rw [hs] at hstep
    cases hstep
    exact hAs

/-- Every state reached by allocate / deallocate calls from a freshly created
pool is `Active`. -/
theorem Reached.active {T : Type} [Inhabited T] {cap : Nat} {p : MemPool T}
    (hmax : cap ≤ INT_MAX) (hR : Reached cap p) : Active cap p := by
  induction hR with
  | fresh => exact Active_createPool_ctor cap hmax
  | call p q op r _ hop hstep ih => exact step_active cap p q op r ih hop hstep

/-- Writing a cell and then writing back what it held restores the block. -/
theorem set_set_restore {α : Type} (l : List α) (i : Nat) (a b : α) (h : l[i]? = some a) :
    (l.set i b).set i a = l := by
  rw [List.set_set]
  apply List.ext_getElem?
  intro j
  rw [List.getElem?_set]
  by_cases hij : i = j
  · subst hij
    obtain ⟨hlt, _⟩ := List.getElem?_eq_some.mp h
    simp [hlt, h]
  · simp [hij]

/-! ## LIFO reuse, round trip, double free -/

/-- C5: LIFO reuse.  In every state reached from a fresh createPool by
allocate / deallocate calls, deallocating the handle of an occupied slot i
makes i the top of the free stack, and the next allocateObject (either
overload) returns the handle of slot i and brings live_count back to its value
before the deallocation. -/
theorem lifo_reuse {T : Type} [Inhabited T] (cap : Nat) (p : MemPool T) (i : Nat) (v : T)
    (hmax : cap ≤ INT_MAX) (hR : Reached cap p) (hocc : occupied p i = some true) :
    ∃ q, deallocateObject p (some i) = .ok q ∧ (freeStack q).head? = some (some i) ∧
      (∃ r, allocateObject cap q v = .ok (some i, r) ∧
        r.m_uiNumOfElements = p.m_uiNumOfElements) ∧
      (∃ r, allocateObject_default cap q = .ok (some i, r) ∧
        r.m_uiNumOfElements = p.m_uiNumOfElements) := by
  have hA := hR.active hmax
  obtain ⟨q, hrun, hAq, hfs, _, _, hnum, _, _⟩ :=
    deallocateObject_active_occupied cap p i hA hocc
  have hlt : q.m_uiNumOfElements < cap := by
    have := hA.counter_le
    omega
  have key : ∀ t : T, ∃ r, allocateObject cap q t = .ok (some i, r) ∧
      r.m_uiNumOfElements = p.m_uiNumOfElements := by
    intro t
    obtain ⟨k, rest, r, hfs2, _, _, hrun2, _, _, _, _, hnum2, _, _⟩ :=
      allocateObject_active cap q t hAq hlt
    rw [hfs, List.cons.injEq] at hfs2
    have hki : i = k := Option.some.inj hfs2.1
    subst hki
    exact ⟨r, hrun2, by omega⟩
  refine ⟨q, hrun, by rw [hfs]; rfl, key v, ?_⟩
  rw [allocateObject_default_eq]
  exact key default

/-- C5 on the scenario of capacity 3: after three allocations (slots 0, 1, 2)
slot 1 is deallocated and allocated again. -/
theorem lifo_reuse_witness :
    3 ≤ INT_MAX ∧ Reached 3 pool3_full ∧ occupied pool3_full 1 = some true ∧
    pool3_full.m_uiNumOfElements = 3 ∧
    ∃ q, deallocateObject pool3_full (some 1) = .ok q ∧
      (freeStack q).head? = some (some 1) ∧
      (∃ r, allocateObject 3 q 5 = .ok (some 1, r) ∧
        r.m_uiNumOfElements = pool3_full.m_uiNumOfElements) ∧
      (∃ r, allocateObject_default 3 q = .ok (some 1, r) ∧
        r.m_uiNumOfElements = pool3_full.m_uiNumOfElements) :=
  have hR : Reached 3 pool3_full :=
    Reached.call pool3_two pool3_full (.alloc 9) (.handle (some 2))
      (Reached.call pool3_one pool3_two (.alloc 8) (.handle (some 1))
        (Reached.call (createPool 3 MemPool_ctor) pool3_one (.alloc 7) (.handle (some 0))
          Reached.fresh rfl rfl) rfl rfl) rfl rfl
  ⟨by decide, hR, by decide, rfl, lifo_reuse 3 pool3_full 1 5 (by decide) hR (by decide)⟩

/-- C6: round trip.  On an Active state with live_count < capacity,
allocateObject (either overload) followed at once by deallocateObject on the
returned handle restores live_count, the occupancy table and the free stack
(only the contents of the slot handed out may differ), and a subsequent
allocateObject (either overload) returns the same slot again. -/
theorem alloc_dealloc_roundtrip {T : Type} [Inhabited T] (cap : Nat) (p : MemPool T) (v : T)
    (hA : Active cap p) (hlt : p.m_uiNumOfElements < cap) :
    (∃ i q r, allocateObject cap p v = .ok (some i, q) ∧
      deallocateObject q (some i) = .ok r ∧
      r.m_uiNumOfElements = p.m_uiNumOfElements ∧
      r.m_bpMemInUse = p.m_bpMemInUse ∧ freeStack r = freeStack p ∧
      (∀ j, j ≠ i → slot r j = slot p j) ∧
      (∀ w, ∃ s, allocateObject cap r w = .ok (some i, s)) ∧
      (∃ s, allocateObject_default cap r = .ok (some i, s))) ∧
    (∃ i q r, allocateObject_default cap p = .ok (some i, q) ∧
      deallocateObject q (some i) = .ok r ∧
      r.m_uiNumOfElements = p.m_uiNumOfElements ∧
      r.m_bpMemInUse = p.m_bpMemInUse ∧ freeStack r = freeStack p ∧
      (∀ j, j ≠ i → slot r j = slot p j) ∧
      (∀ w, ∃ s, allocateObject cap r w = .ok (some i, s)) ∧
      (∃ s, allocateObject_default cap r = .ok (some i, s))) := by
  have key : ∀ t : T, ∃ i q r, allocateObject cap p t = .ok (some i, q) ∧
      deallocateObject q (some i) = .ok r ∧
      r.m_uiNumOfElements = p.m_uiNumOfElements ∧
      r.m_bpMemInUse = p.m_bpMemInUse ∧ freeStack r = freeStack p ∧
      (∀ j, j ≠ i → slot r j = slot p j) ∧
      (∀ w, ∃ s, allocateObject cap r w = .ok (some i, s)) ∧
      (∃ s, allocateObject_default cap r = .ok (some i, s)) := by
    intro t
    obtain ⟨i, rest, q, hfs, hi, hocc, hrun, hAq, hrest, huse, hpool, hnum, _, _⟩ :=
      allocateObject_active cap p t hA hlt
    have hoccq : occupied q i = some true := by
      rw [occupied_set p q i i true huse]
      simp [hA.2.2.2.1, hi]
    obtain ⟨r, hrun2, hAr, hfs2, huse2, hpool2, hnum2, _, _⟩ :=
      deallocateObject_active_occupied cap q i hAq hoccq
    have hnumr : r.m_uiNumOfElements = p.m_uiNumOfElements := by omega
    have hfsr : freeStack r = freeStack p := by rw [hfs2, hrest, hfs]
    have again : ∀ w : T, ∃ s, allocateObject cap r w = .ok (some i, s) := by
      intro w
      obtain ⟨k, rest2, s, hfs3, _, _, hrun3, _⟩ :=
        allocateObject_active cap r w hAr (by omega)
      rw [hfsr, hfs, List.cons.injEq] at hfs3
      have hki : i = k := Option.some.inj hfs3.1
      subst hki
      exact ⟨s, hrun3⟩
    refine ⟨i, q, r, hrun, hrun2, hnumr, ?_, hfsr, ?_, again, ?_⟩
    · rw [huse2, huse]
      exact set_set_restore _ _ _ _ ((occupied_eq_some p i false).mp hocc)
    · intro j hj
      unfold slot
      rw [hpool2, hpool, List.getElem?_set_ne (Ne.symm hj)]
    · rw [allocateObject_default_eq]
      exact again default
  refine ⟨key v, ?_⟩
  rw [allocateObject_default_eq]
  exact key default

/-- C6 at capacity 3 on the pool in which only slot 0 is occupied. -/
theorem alloc_dealloc_roundtrip_witness :
    Active 3 pool3_one ∧ pool3_one.m_uiNumOfElements < 3 ∧
    ((∃ i q r, allocateObject 3 pool3_one 4 = .ok (some i, q) ∧
      deallocateObject q (some i) = .ok r ∧
      r.m_uiNumOfElements = pool3_one.m_uiNumOfElements ∧
      r.m_bpMemInUse = pool3_one.m_bpMemInUse ∧ freeStack r = freeStack pool3_one ∧
      (∀ j, j ≠ i → slot r j = slot pool3_one j) ∧
      (∀ w, ∃ s, allocateObject 3 r w = .ok (some i, s)) ∧
      (∃ s, allocateObject_default 3 r = .ok (some i, s))) ∧
    (∃ i q r, allocateObject_default 3 pool3_one = .ok (some i, q) ∧
      deallocateObject q (some i) = .ok r ∧
      r.m_uiNumOfElements = pool3_one.m_uiNumOfElements ∧
      r.m_bpMemInUse = pool3_one.m_bpMemInUse ∧ freeStack r = freeStack pool3_one ∧
      (∀ j, j ≠ i → slot r j = slot pool3_one j) ∧
      (∀ w, ∃ s, allocateObject 3 r w = .ok (some i, s)) ∧
      (∃ s, allocateObject_default 3 r = .ok (some i, s)))) :=
  ⟨by decide, by decide, alloc_dealloc_roundtrip 3 pool3_one 4 (by decide) (by decide)⟩

/-- C10: double free.  On an Active state, deallocateObject on the handle of an
in-range slot returns, and calling it again on the same handle returns the very
state the first call left: live_count, free stack and occupancy table are
unchanged by the second call.  More generally, on a slot whose flag is already
cleared the call changes nothing. -/
theorem double_free_noop {T : Type} (cap : Nat) (p : MemPool T) (i : Nat)
    (hA : Active cap p) (hi : i < cap) :
    (∃ q, deallocateObject p (some i) = .ok q ∧ deallocateObject q (some i) = .ok q) ∧
    (occupied p i = some false → deallocateObject p (some i) = .ok p) := by
  refine ⟨?_, deallocateObject_free p i⟩
  rcases hA.occupied_cases i hi with hocc | hocc
  · obtain ⟨q, hrun, _, _, huse, _⟩ := deallocateObject_active_occupied cap p i hA hocc
    refine ⟨q, hrun, deallocateObject_free q i ?_⟩
    rw [occupied_set p q i i false huse]
    simp [hA.2.2.2.1, hi]
  · exact ⟨p, deallocateObject_free p i hocc, deallocateObject_free p i hocc⟩

/-- C10 at capacity 3: slot 0 of the pool is occupied, and is freed twice. -/
theorem double_free_noop_witness :
    Active 3 pool3_one ∧ 0 < 3 ∧
    ((∃ q, deallocateObject pool3_one (some 0) = .ok q ∧
      deallocateObject q (some 0) = .ok q) ∧
    (occupied pool3_one 0 = some false → deallocateObject pool3_one (some 0) = .ok pool3_one)) :=
  ⟨by decide, by decide, double_free_noop 3 pool3_one 0 (by decide) (by decide)⟩

/-! ## Invariants along sequences of calls -/

/-- A call of `allocateObject` or `deallocateObject` made as `callPre` asks on
an `Active` state returns, and leaves an `Active` state. -/
theorem step_ok_of_pre {T : Type} [Inhabited T] (cap : Nat) (p : MemPool T) (op : Op T)
    (hA : Active cap p) (hop : isAllocDealloc op = true) (hpre : callPre cap p op = true) :
    ∃ r q, step cap p op = .ok (r, q) ∧ Active cap q := by
  have halloc : isAlloc op = true → p.m_uiNumOfElements < cap →
      ∃ r q, step cap p op = .ok (r, q) ∧ Active cap q := by
    intro hal hlt
    obtain ⟨i, _, q, _, _, _, _, hs, hAq, _⟩ := step_alloc_active cap p op hA hlt hal
    exact ⟨_, q, hs, hAq⟩
  cases op with
  | alloc_default => exact halloc rfl (by simpa [callPre] using hpre)
  | alloc t => exact halloc rfl (by simpa [callPre] using hpre)
  | create => simp [isAllocDealloc] at hop
  | destroy => simp [isAllocDealloc] at hop
  | dealloc h =>
    obtain ⟨q, hs, hAq, _⟩ := step_dealloc_active cap p h hA hpre
    exact ⟨_, q, hs, hAq⟩

/-- What `respects` says about a sequence whose first call returns. -/
theorem respects_cons {T : Type} [Inhabited T] (cap : Nat) (p q : MemPool T) (op : Op T)
    (ops : List (Op T)) (r : Ret) (hstep : step cap p op = .ok (r, q)) :
    respects cap p (op :: ops) = (callPre cap p op && respects cap q ops) := by
  simp [respects, hstep]

/-- The trace of a sequence whose first call returns. -/
theorem runOps_cons {T : Type} [Inhabited T] (cap : Nat) (p q : MemPool T) (op : Op T)
    (ops : List (Op T)) (r : Ret) (tr : List (Ret × MemPool T))
    (hstep : step cap p op = .ok (r, q)) (hrun : runOps cap q ops = .ok tr) :
    runOps cap p (op :: ops) = .ok ((r, q) :: tr) := by
  simp [runOps, hstep, hrun]

/-- Along a sequence of allocate / deallocate calls made as `callPre` asks,
started on an `Active` state, every call returns and every state is `Active`. -/
theorem runOps_active {T : Type} [Inhabited T] (cap : Nat) :
    ∀ (ops : List (Op T)) (p : MemPool T), Active cap p →
      (∀ op ∈ ops, isAllocDealloc op = true) → respects cap p ops = true →
      ∃ tr, runOps cap p ops = .ok tr ∧ tr.length = ops.length ∧
        ∀ rq ∈ tr, Active cap rq.2 := by
  intro ops
  induction ops with
  | nil =>
    intro p _ _ _
    exact ⟨[], rfl, rfl, by simp⟩
  | cons op ops ih =>
    intro p hA hops hresp
    have hpre : callPre cap p op = true := by
      unfold respects at hresp
      exact (Bool.and_eq_true _ _ ▸ hresp).1
    obtain ⟨r, q, hstep, hAq⟩ :=
      step_ok_of_pre cap p op hA (hops op (List.mem_cons_self _ _)) hpre
    rw [respects_cons cap p q op ops r hstep, Bool.and_eq_true] at hresp
    obtain ⟨tr, hrun, hlen, hall⟩ :=
      ih q hAq (fun o ho => hops o (List.mem_cons_of_mem _ ho)) hresp.2
    refine ⟨(r, q) :: tr, runOps_cons cap p q op ops r tr hstep hrun, by simp [hlen], ?_⟩
    intro rq hrq
    rcases List.mem_cons.mp hrq with h | h
    · rw [h]
      exact hAq
    · exact hall rq h

/-- C7: for every capacity N (in the range of `int`) and every sequence of
allocateObject / deallocateObject calls applied to a freshly initialised pool,
each allocate made with live_count < N and each deallocate given an in-range
handle (or the null pointer), every call returns and after every call
live_count equals the number of slots with occupied[i] == true, which is at
most N. -/
theorem live_count_invariant {T : Type} [Inhabited T] (cap : Nat) (ops : List (Op T))
    (hmax : cap ≤ INT_MAX) (hops : ∀ op ∈ ops, isAllocDealloc op = true)
    (hresp : respects cap (createPool cap MemPool_ctor) ops = true) :
    ∃ tr, runOps cap (createPool cap MemPool_ctor) ops = .ok tr ∧ tr.length = ops.length ∧
      ∀ rq ∈ tr, rq.2.m_uiNumOfElements = liveSlots rq.2 ∧ liveSlots rq.2 ≤ cap := by
  obtain ⟨tr, hrun, hlen, hall⟩ :=
    runOps_active cap ops (createPool cap MemPool_ctor) (Active_createPool_ctor cap hmax)
      hops hresp
  refine ⟨tr, hrun, hlen, ?_⟩
  intro rq hrq
  have hA := hall rq hrq
  refine ⟨hA.2.2.2.2.2.2.1, ?_⟩
  have hlen2 := hA.2.2.2.1
  unfold liveSlots
  rw [← hlen2]
  exact List.count_le_length _ _

/-- C7 at capacity 3: allocate thrice, free slot 1 (twice), allocate again. -/
theorem live_count_invariant_witness :
    3 ≤ INT_MAX ∧
    ∃ tr, runOps 3 (createPool 3 (MemPool_ctor : MemPool Nat))
        [.alloc 7, .alloc_default, .alloc 9, .dealloc (some 1), .dealloc (some 1), .alloc 5]
          = .ok tr ∧
      tr.length = 6 ∧
      ∀ rq ∈ tr, rq.2.m_uiNumOfElements = liveSlots rq.2 ∧ liveSlots rq.2 ≤ 3 :=
  ⟨by decide, live_count_invariant 3
    [.alloc 7, .alloc_default, .alloc 9, .dealloc (some 1), .dealloc (some 1), .alloc 5]
    (by decide) (by decide) (by decide)⟩

/-! ## Validity of a handle -/

/-- A call that does not release slot `i`, made as `callPre` asks on an
`Active` state in which slot `i` is occupied and holds `v`: it returns, it does
not hand out slot `i`, and slot `i` is still occupied and still holds `v`. -/
theorem step_keeps_slot {T : Type} [Inhabited T] (cap : Nat) (p : MemPool T) (op : Op T)
    (i : Nat) (v : T) (hA : Active cap p) (hocc : occupied p i = some true)
    (hval : slot p i = some v) (hkeep : keepsSlot i op = true)
    (hpre : callPre cap p op = true) :
    ∃ r q, step cap p op = .ok (r, q) ∧ Active cap q ∧ occupied q i = some true ∧
      slot q i = some v ∧ r ≠ .handle (some i) := by
  have halloc : isAlloc op = true → p.m_uiNumOfElements < cap →
      ∃ r q, step cap p op = .ok (r, q) ∧ Active cap q ∧ occupied q i = some true ∧
        slot q i = some v ∧ r ≠ .handle (some i) := by
    intro hal hlt
    obtain ⟨k, _, q, t, _, _, hfree, hs, hAq, _, huse, hpool, _⟩ :=
      step_alloc_active cap p op hA hlt hal
    have hne : k ≠ i := by
      intro hki
      rw [hki, hocc] at hfree
      simp at hfree
    refine ⟨_, q, hs, hAq, ?_, ?_, ?_⟩
    · rw [occupied_set p q k i true huse]
      simp [hne, hocc]
    · rw [slot_set p q k i t hpool]
      simp [hne, hval]
    · intro h
      injection h with h
      exact hne (Option.some.inj h)
  cases op with
  | alloc_default => exact halloc rfl (by simpa [callPre] using hpre)
  | alloc t => exact halloc rfl (by simpa [callPre] using hpre)
  | create => simp [keepsSlot] at hkeep
  | destroy => simp [keepsSlot] at hkeep
  | dealloc h =>
    have hne : h ≠ some i := by simpa [keepsSlot] using hkeep
    obtain ⟨q, hs, hAq, hpool, hsame⟩ := step_dealloc_active cap p h hA hpre
    refine ⟨_, q, hs, hAq, ?_, ?_, ?_⟩
    · rw [hsame i hne]
      exact hocc
    · unfold slot
      rw [hpool]
      exact hval
    · intro h
      cases h

/-- Along a sequence of calls none of which releases slot `i`, started on an
`Active` state in which slot `i` is occupied and holds `v`. -/
theorem runOps_keeps_slot {T : Type} [Inhabited T] (cap : Nat) (i : Nat) (v : T) :
    ∀ (ops : List (Op T)) (p : MemPool T), Active cap p → occupied p i = some true →
      slot p i = some v → (∀ op ∈ ops, keepsSlot i op = true) → respects cap p ops = true →
      ∃ tr, runOps cap p ops = .ok tr ∧ tr.length = ops.length ∧
        ∀ rq ∈ tr, occupied rq.2 i = some true ∧ slot rq.2 i = some v ∧
          rq.1 ≠ .handle (some i) := by
  intro ops
  induction ops with
  | nil =>
    intro p _ _ _ _ _
    exact ⟨[], rfl, rfl, by simp⟩
  | cons op ops ih =>
    intro p hA hocc hval hkeep hresp
    have hpre : callPre cap p op = true := by
      unfold respects at hresp
      exact (Bool.and_eq_true _ _ ▸ hresp).1
    obtain ⟨r, q, hstep, hAq, hoccq, hvalq, hr⟩ :=
      step_keeps_slot cap p op i v hA hocc hval (hkeep op (List.mem_cons_self _ _)) hpre
    rw [respects_cons cap p q op ops r hstep, Bool.and_eq_true] at hresp
    obtain ⟨tr, hrun, hlen, hall⟩ :=
      ih q hAq hoccq hvalq (fun o ho => hkeep o (List.mem_cons_of_mem _ ho)) hresp.2
    refine ⟨(r, q) :: tr, runOps_cons cap p q op ops r tr hstep hrun, by simp [hlen], ?_⟩
    intro rq hrq
    rcases List.mem_cons.mp hrq with h | h
    · rw [h]
      exact ⟨hoccq, hvalq, hr⟩
    · exact hall rq h

/-- C9: handle validity.  When allocateObject(v), on a pool reached from a
fresh createPool by allocate / deallocate calls, returns the handle of slot i,
then slot i is occupied and holds v, and along every following sequence of
allocateObject calls (made with live_count < capacity) and deallocateObject
calls on handles other than that of slot i, every call returns, and after each
of them slot i is still occupied, still holds v, and was not handed out by that
call. -/
theorem handle_validity {T : Type} [Inhabited T] (cap : Nat) (p q : MemPool T) (i : Nat)
    (v : T) (ops : List (Op T)) (hmax : cap ≤ INT_MAX) (hR : Reached cap p)
    (halloc : allocateObject cap p v = .ok (some i, q))
    (hkeep : ∀ op ∈ ops, keepsSlot i op = true) (hresp : respects cap q ops = true) :
    occupied q i = some true ∧ slot q i = some v ∧
    ∃ tr, runOps cap q ops = .ok tr ∧ tr.length = ops.length ∧
      ∀ rq ∈ tr, occupied rq.2 i = some true ∧ slot rq.2 i = some v ∧
        rq.1 ≠ .handle (some i) := by
  have hA := hR.active hmax
  have hlt : p.m_uiNumOfElements < cap := by
    apply Nat.lt_of_le_of_ne hA.counter_le
    intro hfull
    simp [allocateObject, hA.1, hfull] at halloc
  obtain ⟨k, _, s, _, hk, _, hrun, hAs, _, huse, hpool, _⟩ :=
    allocateObject_active cap p v hA hlt
  rw [hrun] at halloc
  injection halloc with halloc
  injection halloc with hki hsq
  have hki2 : k = i := Option.some.inj hki
  subst hki2
  subst hsq
  have hocc : occupied s k = some true := by
    rw [occupied_set p s k k true huse]
    simp [hA.2.2.2.1, hk]
  have hval : slot s k = some v := by
    rw [slot_set p s k k v hpool]
    simp [hA.2.2.1, hk]
  exact ⟨hocc, hval, runOps_keeps_slot cap k v ops s hAs hocc hval hkeep hresp⟩

/-- C9 at capacity 3: slot 1 is handed out holding 8; then slot 2 is
allocated, slot 0 freed and allocated again, slot 2 freed. -/
theorem handle_validity_witness :
    3 ≤ INT_MAX ∧ Reached 3 pool3_one ∧
    allocateObject 3 pool3_one 8 = .ok (some 1, pool3_two) ∧
    occupied pool3_two 1 = some true ∧ slot pool3_two 1 = some 8 ∧
    ∃ tr, runOps 3 pool3_two [.alloc 9, .dealloc (some 0), .alloc 4, .dealloc (some 2)]
        = .ok tr ∧
      tr.length = 4 ∧
      ∀ rq ∈ tr, occupied rq.2 1 = some true ∧ slot rq.2 1 = some 8 ∧
        rq.1 ≠ .handle (some 1) :=
  have hR : Reached 3 pool3_one :=
    Reached.call (createPool 3 MemPool_ctor) pool3_one (.alloc 7) (.handle (some 0))
      Reached.fresh rfl rfl
  ⟨by decide, hR, rfl,
    handle_validity 3 pool3_one pool3_two 1 8
      [.alloc 9, .dealloc (some 0), .alloc 4, .dealloc (some 2)]
      (by decide) hR rfl (by decide) (by decide)⟩

/-! ## Re-creation and the counter -/

/-- After `createPool`, one allocation, `destroyPool` and `createPool` again,
at any capacity from 1 on: every call returns, the pool is initialised with all
flags cleared and a free stack of `cap` entries, and the counter still reads 1. -/
theorem recreate_counter {T : Type} [Inhabited T] (cap : Nat) (v : T)
    (h1 : 1 ≤ cap) (hmax : cap ≤ INT_MAX) :
    ∃ tr q, runOps cap (MemPool_ctor : MemPool T) [.create, .alloc v, .destroy, .create]
        = .ok tr ∧
      respects cap (MemPool_ctor : MemPool T) [.create, .alloc v, .destroy, .create] = true ∧
      tr.getLast? = some (.void, q) ∧ q.m_bPoolInitialized = true ∧
      q.m_uiNumOfElements = 1 ∧ liveSlots q = 0 ∧ (freeStack q).length = cap := by
  have hA := Active_createPool_ctor (T := T) cap hmax
  have hnum0 : (createPool cap (MemPool_ctor : MemPool T)).m_uiNumOfElements = 0 := by
    rw [createPool_ctor]
  obtain ⟨i, rest, q1, _, _, _, hrun1, hA1, _, _, _, hnum1, _, hsp1⟩ :=
    allocateObject_active cap _ v hA (by rw [hnum0]; omega)
  rw [hnum0] at hnum1
  have hdes : destroyPool cap q1 = .ok { q1 with
      m_bPoolInitialized := false
      m_tpPool := []
      m_bpMemInUse := []
      freeAdrIdxBlock := [] } := by
    have hsp := hA1.2.2.2.2.2.2.2.1
    have hbase : q1.m_uipFreeAdrIdx =
        (cap + UINT_MOD - q1.m_uiNumOfElements % UINT_MOD) % UINT_MOD := by
      rw [hnum1] at hsp ⊢
      unfold INT_MAX at hmax
      unfold UINT_MOD
      omega
    unfold destroyPool
    rw [if_pos hA1.1, if_pos hbase]
  refine ⟨[(.void, createPool cap MemPool_ctor), (.handle (some i), q1),
      (.void, { q1 with
        m_bPoolInitialized := false
        m_tpPool := []
        m_bpMemInUse := []
        freeAdrIdxBlock := [] }),
      (.void, createPool cap { q1 with
        m_bPoolInitialized := false
        m_tpPool := []
        m_bpMemInUse := []
        freeAdrIdxBlock := [] })], _, ?_, ?_, rfl, ?_, ?_, ?_, ?_⟩
  · simp only [runOps, step, hrun1, hdes]
  · simp only [respects, step, hrun1, hdes, callPre, hnum0]
    simp
    omega
  · rw [createPool_eq _ _ rfl]
  · rw [createPool_eq _ _ rfl]
    exact hnum1
  · rw [createPool_eq _ _ rfl]
    simp [liveSlots, List.count_replicate]
  · rw [createPool_eq _ _ rfl]
    simp [freeStack]

/-- C8, evaluated at the capacity of the header (1000) on the calls createPool,
allocateObject(7), destroyPool, createPool: every call returns and is made as
the claim asks, the pool ends initialised, no slot is occupied and the free
stack has 1000 entries, while live_count reads 1; the final state is not
`Active` in the sense of the data model. -/
theorem recreate_leaves_stale_live_count :
    ∃ tr q, runOps 1000 (MemPool_ctor : MemPool Nat) [.create, .alloc 7, .destroy, .create]
        = .ok tr ∧
      respects 1000 (MemPool_ctor : MemPool Nat) [.create, .alloc 7, .destroy, .create]
        = true ∧
      tr.getLast? = some (.void, q) ∧ q.m_bPoolInitialized = true ∧
      q.m_uiNumOfElements = 1 ∧ liveSlots q = 0 ∧ (freeStack q).length = 1000 ∧
      ¬ Active 1000 q := by
  obtain ⟨tr, q, hrun, hresp, hlast, hinit, hnum, hlive, hlen⟩ :=
    recreate_counter (T := Nat) 1000 7 (by decide) (by decide)
  refine ⟨tr, q, hrun, hresp, hlast, hinit, hnum, hlive, hlen, ?_⟩
  intro hA
  have := hA.2.2.2.2.2.2.1
  omega

/-! ## Exhaustion and the pool that is not ready -/

/-- C11: exhaustion is fatal.  On every Active pool state with
live_count == capacity, allocateObject (either overload) runs into the
assertion: it does not return a handle, nor any error value, and since the
assertion comes before the pop nothing is allocated. -/
theorem exhaustion_is_fatal {T : Type} [Inhabited T] (cap : Nat) (p : MemPool T) (v : T)
    (hA : Active cap p) (hfull : p.m_uiNumOfElements = cap) :
    allocateObject cap p v = .error .assertion ∧
    allocateObject_default cap p = .error .assertion ∧
    (∀ h q, allocateObject cap p v ≠ .ok (h, q)) ∧
    (∀ h q, allocateObject_default cap p ≠ .ok (h, q)) := by
  have hinit := hA.1
  have h1 : allocateObject cap p v = .error .assertion := by
    simp [allocateObject, hinit, hfull]
  have h2 : allocateObject_default cap p = .error .assertion := by
    simp [allocateObject_default, hinit, hfull]
  refine ⟨h1, h2, ?_, ?_⟩
  · intro h q hc
    rw [h1] at hc
    cases hc
  · intro h q hc
    rw [h2] at hc
    cases hc

/-- C11 on the scenario of capacity 1: the first allocation returns slot 0 and
fills the pool, the second one runs into the assertion. -/
theorem exhaustion_is_fatal_witness :
    allocateObject 1 (createPool 1 (MemPool_ctor : MemPool Nat)) 7 = .ok (some 0, pool1_full) ∧
    Active 1 pool1_full ∧ pool1_full.m_uiNumOfElements = 1 ∧
    (allocateObject 1 pool1_full 8 = .error .assertion ∧
     allocateObject_default 1 pool1_full = .error .assertion ∧
     (∀ h q, allocateObject 1 pool1_full 8 ≠ .ok (h, q)) ∧
     (∀ h q, allocateObject_default 1 pool1_full ≠ .ok (h, q))) :=
  ⟨rfl, by decide, rfl, exhaustion_is_fatal 1 pool1_full 8 (by decide) rfl⟩

/-- C12: on every pool that is not initialised (newly constructed, or after
destroyPool), allocateObject (either overload) returns the null handle,
deallocateObject of any handle returns, and none of these calls changes any
part of the pool state. -/
theorem pool_not_ready {T : Type} [Inhabited T] (cap : Nat) (p : MemPool T) (v : T)
    (h : Option Nat) (hU : p.m_bPoolInitialized = false) :
    allocateObject cap p v = .ok (none, p) ∧
    allocateObject_default cap p = .ok (none, p) ∧
    deallocateObject p h = .ok p := by
  refine ⟨?_, ?_, ?_⟩
  · simp [allocateObject, hU]
  · simp [allocateObject_default, hU]
  · simp [deallocateObject, hU]

/-- C12 on the newly constructed pool and on the pool left by destroyPool. -/
theorem pool_not_ready_witness :
    ((MemPool_ctor : MemPool Nat).m_bPoolInitialized = false ∧
      (allocateObject 3 (MemPool_ctor : MemPool Nat) 7 = .ok (none, MemPool_ctor) ∧
       allocateObject_default 3 (MemPool_ctor : MemPool Nat) = .ok (none, MemPool_ctor) ∧
       deallocateObject (MemPool_ctor : MemPool Nat) (some 0) = .ok MemPool_ctor)) ∧
    (destroyPool 3 pool3_one = .ok pool3_destroyed ∧
      pool3_destroyed.m_bPoolInitialized = false ∧
      (allocateObject 3 pool3_destroyed 7 = .ok (none, pool3_destroyed) ∧
       allocateObject_default 3 pool3_destroyed = .ok (none, pool3_destroyed) ∧
       deallocateObject pool3_destroyed (some 0) = .ok pool3_destroyed)) :=
  ⟨⟨rfl, pool_not_ready 3 MemPool_ctor 7 (some 0) rfl⟩,
   ⟨rfl, rfl, pool_not_ready 3 pool3_destroyed 7 (some 0) rfl⟩⟩

/-! ## Lifecycle calls -/

/-- C14: createPool on a pool that is already initialised (every Active state
is one) returns the state it was given: live_count, the occupancy table, the
free stack and the slot contents are unchanged; nothing is reset or re-seeded. -/
theorem createPool_idempotent {T : Type} (cap : Nat) (p : MemPool T)
    (hinit : p.m_bPoolInitialized = true) :
    createPool cap p = p ∧
    (createPool cap p).m_uiNumOfElements = p.m_uiNumOfElements ∧
    (createPool cap p).m_bpMemInUse = p.m_bpMemInUse ∧
    freeStack (createPool cap p) = freeStack p ∧
    (createPool cap p).m_tpPool = p.m_tpPool := by
  have h : createPool cap p = p := by
    unfold createPool
    rw [if_neg]
    rw [hinit]
    simp
  rw [h]
  exact ⟨rfl, rfl, rfl, rfl, rfl⟩

/-- C14 at capacity 3 on the Active pool in which slot 0 is occupied. -/
theorem createPool_idempotent_witness :
    Active 3 pool3_one ∧ pool3_one.m_bPoolInitialized = true ∧
    (createPool 3 pool3_one = pool3_one ∧
     (createPool 3 pool3_one).m_uiNumOfElements = pool3_one.m_uiNumOfElements ∧
     (createPool 3 pool3_one).m_bpMemInUse = pool3_one.m_bpMemInUse ∧
     freeStack (createPool 3 pool3_one) = freeStack pool3_one ∧
     (createPool 3 pool3_one).m_tpPool = pool3_one.m_tpPool) :=
  ⟨by decide, rfl, createPool_idempotent 3 pool3_one rfl⟩

/-- In an `Active` state the pointer handed to the third `free` of
`destroyPool` is the base of the index block. -/
theorem Active.free_base {T : Type} {cap : Nat} {p : MemPool T} (hA : Active cap p) :
    p.m_uipFreeAdrIdx = (cap + UINT_MOD - p.m_uiNumOfElements % UINT_MOD) % UINT_MOD := by
  have hsp := hA.2.2.2.2.2.2.2.1
  have hcap := hA.2.1
  unfold INT_MAX at hcap
  unfold UINT_MOD
  omega

/-- What `destroyPool` returns on an `Active` state. -/
theorem destroyPool_active {T : Type} (cap : Nat) (p : MemPool T) (hA : Active cap p) :
    destroyPool cap p = .ok { p with
      m_bPoolInitialized := false
      m_tpPool := []
      m_bpMemInUse := []
      freeAdrIdxBlock := [] } := by
  unfold destroyPool
  rw [if_pos hA.1, if_pos hA.free_base]

/-- `destroyPool` where it is well defined.  On a state `p` that satisfies the
data-model invariant `Active` it returns a state that is not initialised, the
three blocks released; on every state `u` that is not initialised it returns
`u` unchanged.  An initialised state outside the invariant is not covered:
see `destroyPool_after_recreate`. -/
theorem destroyPool_effect {T : Type} (cap : Nat) (p u : MemPool T)
    (hA : Active cap p) (hU : u.m_bPoolInitialized = false) :
    (∃ q, destroyPool cap p = .ok q ∧ q.m_bPoolInitialized = false ∧
      q.m_tpPool = [] ∧ q.m_bpMemInUse = [] ∧ q.freeAdrIdxBlock = [] ∧ q ≠ p) ∧
    destroyPool cap u = .ok u := by
  refine ⟨⟨_, destroyPool_active cap p hA, rfl, rfl, rfl, rfl, ?_⟩, ?_⟩
  · intro hq
    have hflag := congrArg MemPool.m_bPoolInitialized hq
    rw [hA.1] at hflag
    cases hflag
  · simp [destroyPool, hU]

/-- `destroyPool_effect` at capacity 3: on the pool with slot 0 occupied, and
on the newly constructed pool. -/
theorem destroyPool_effect_witness :
    Active 3 pool3_one ∧ (MemPool_ctor : MemPool Nat).m_bPoolInitialized = false ∧
    ((∃ q, destroyPool 3 pool3_one = .ok q ∧ q.m_bPoolInitialized = false ∧
      q.m_tpPool = [] ∧ q.m_bpMemInUse = [] ∧ q.freeAdrIdxBlock = [] ∧ q ≠ pool3_one) ∧
    destroyPool 3 (MemPool_ctor : MemPool Nat) = .ok MemPool_ctor) :=
  ⟨by decide, rfl, destroyPool_effect 3 pool3_one MemPool_ctor (by decide) rfl⟩

/-- C16: in every pool state, initialised or not, deallocateObject called with
the null handle returns the state it was given: nothing is pushed on the free
stack, and live_count, the occupancy table and the free stack are unchanged. -/
theorem null_handle_noop {T : Type} (p : MemPool T) :
    deallocateObject p none = .ok p ∧
    ∀ q, deallocateObject p none = .ok q →
      freeStack q = freeStack p ∧ q.m_uiNumOfElements = p.m_uiNumOfElements ∧
      q.m_bpMemInUse = p.m_bpMemInUse ∧ q.m_uipFreeAdrIdx = p.m_uipFreeAdrIdx := by
  refine ⟨deallocateObject_null p, ?_⟩
  intro q hq
  rw [deallocateObject_null] at hq
  injection hq with hq
  subst hq
  exact ⟨rfl, rfl, rfl, rfl⟩

/-- C18: the two allocation overloads agree.  In every pool state,
allocateObject() returns what allocateObject(d) returns for the
default-constructed `d`: the same handle and the same resulting state, or the
same fault. -/
theorem overloads_agree {T : Type} [Inhabited T] (cap : Nat) (p : MemPool T) :
    allocateObject_default cap p = allocateObject cap p (default : T) ∧
    ∀ h q, allocateObject_default cap p = .ok (h, q) ↔
      allocateObject cap p (default : T) = .ok (h, q) := by
  have heq : allocateObject_default cap p = allocateObject cap p (default : T) := by
    unfold allocateObject_default allocateObject
    by_cases hinit : p.m_bPoolInitialized = true
    · by_cases hfull : p.m_uiNumOfElements = cap
      · simp [hinit, hfull]
      · simp [hinit, hfull]
    · simp [hinit]
  refine ⟨heq, ?_⟩
  intro h q
  rw [heq]

/-! ## Re-creation after use -/

/-- After `destroyPool` and `createPool` on an `Active` state the pool is the
freshly created one, except that the counter still holds its old value. -/
theorem recreate_eq {T : Type} (cap : Nat) (p : MemPool T) (hA : Active cap p) :
    ∃ d, destroyPool cap p = .ok d ∧
      createPool cap d =
        { createPool cap (MemPool_ctor : MemPool T) with
          m_uiNumOfElements := p.m_uiNumOfElements } := by
  refine ⟨_, destroyPool_active cap p hA, ?_⟩
  rw [createPool_eq _ _ rfl, createPool_ctor]

/-- Allocations on an `Active` state with room for all of them: the last one
leaves an `Active` state whose counter has grown by their number. -/
theorem runOps_alloc_last {T : Type} [Inhabited T] (cap : Nat) :
    ∀ (ops : List (Op T)) (p : MemPool T), Active cap p →
      (∀ op ∈ ops, isAlloc op = true) → p.m_uiNumOfElements + ops.length ≤ cap →
      ops ≠ [] →
      ∃ tr r q, runOps cap p ops = .ok tr ∧ tr.getLast? = some (r, q) ∧ Active cap q ∧
        q.m_uiNumOfElements = p.m_uiNumOfElements + ops.length := by
  intro ops
  induction ops with
  | nil =>
    intro p _ _ _ hne
    exact absurd rfl hne
  | cons op ops ih =>
    intro p hA hall hlen _
    simp only [List.length_cons] at hlen
    obtain ⟨i, _, q1, _, _, _, _, hstep, hA1, _, _, _, hnum1⟩ :=
      step_alloc_active cap p op hA (by omega) (hall op (List.mem_cons_self _ _))
    cases ops with
    | nil =>
      refine ⟨[(.handle (some i), q1)], _, q1, ?_, rfl, hA1, ?_⟩
      · exact runOps_cons cap p q1 op [] _ [] hstep rfl
      · simp [hnum1]
    | cons op2 ops2 =>
      obtain ⟨tr, r, q, hrun, hlast, hAq, hnum⟩ :=
        ih q1 hA1 (fun o ho => hall o (List.mem_cons_of_mem _ ho))
          (by simp only [List.length_cons] at hlen ⊢; omega) (by simp)
      refine ⟨(.handle (some i), q1) :: tr, r, q,
        runOps_cons cap p q1 op _ _ tr hstep hrun, ?_, hAq, ?_⟩
      · cases tr with
        | nil => simp at hlast
        | cons x xs =>
          rw [List.getLast?_cons_cons]
          exact hlast
      · simp only [List.length_cons] at hnum ⊢
        omega

/-- Fill a freshly created pool of capacity `cap ≥ 1`, destroy it and create
it again: the first allocation on the re-created pool runs into the
assertion, although every slot is free. -/
theorem recreate_full_asserts {T : Type} [Inhabited T] (cap : Nat) (v : T)
    (h1 : 1 ≤ cap) (hmax : cap ≤ INT_MAX) :
    ∃ tr r p d, runOps cap (createPool cap MemPool_ctor) (List.replicate cap (.alloc v))
        = .ok tr ∧
      tr.getLast? = some (r, p) ∧ destroyPool cap p = .ok d ∧
      (createPool cap d).m_uiNumOfElements = cap ∧
      liveSlots (createPool cap d) = 0 ∧
      allocateObject cap (createPool cap d) v = .error .assertion := by
  have hnum0 : (createPool cap (MemPool_ctor : MemPool T)).m_uiNumOfElements = 0 := by
    rw [createPool_ctor]
  obtain ⟨tr, r, p, hrun, hlast, hAp, hnum⟩ :=
    runOps_alloc_last cap (List.replicate cap (.alloc v)) (createPool cap MemPool_ctor)
      (Active_createPool_ctor cap hmax)
      (fun o ho => by rw [List.eq_of_mem_replicate ho]; rfl)
      (by rw [hnum0]; simp)
      (by simp; omega)
  rw [hnum0, List.length_replicate, Nat.zero_add] at hnum
  obtain ⟨d, hdes, hre⟩ := recreate_eq cap p hAp
  refine ⟨tr, r, p, d, hrun, hlast, hdes, ?_, ?_, ?_⟩
  · rw [hre]
    exact hnum
  · rw [hre, createPool_ctor]
    simp [liveSlots, List.count_replicate]
  · rw [hre, createPool_ctor]
    simp [allocateObject, hnum]

/-- The top of the free stack of a freshly created pool is index 0. -/
theorem head_freeStack_createPool_ctor {T : Type} (cap : Nat) (h1 : 1 ≤ cap) :
    (freeStack (createPool cap (MemPool_ctor : MemPool T))).head? = some (some 0) := by
  obtain ⟨n, hn⟩ : ∃ n, cap = n + 1 := ⟨cap - 1, by omega⟩
  subst hn
  rw [freeStack_createPool_ctor, List.range_succ_eq_map]
  rfl

/-- Create a pool of capacity `cap ≥ 1`, allocate once, destroy it and create
it again: the pool is the first-time one except that the counter reads 1. -/
theorem recreate_one {T : Type} (cap : Nat) (v : T) (h1 : 1 ≤ cap) (hmax : cap ≤ INT_MAX) :
    ∃ p d, allocateObject cap (createPool cap (MemPool_ctor : MemPool T)) v
        = .ok (some 0, p) ∧
      destroyPool cap p = .ok d ∧
      createPool cap d =
        { createPool cap (MemPool_ctor : MemPool T) with m_uiNumOfElements := 1 } ∧
      (createPool cap d).m_uiNumOfElements = 1 ∧
      (createPool cap (MemPool_ctor : MemPool T)).m_uiNumOfElements = 0 ∧
      createPool cap d ≠ createPool cap (MemPool_ctor : MemPool T) ∧
      ¬ Active cap (createPool cap d) := by
  have hA := Active_createPool_ctor (T := T) cap hmax
  have hnum0 : (createPool cap (MemPool_ctor : MemPool T)).m_uiNumOfElements = 0 := by
    rw [createPool_ctor]
  obtain ⟨i, rest, p, hfs, _, _, hrun, hAp, _, _, _, hnum, _, _⟩ :=
    allocateObject_active cap _ v hA (by rw [hnum0]; omega)
  rw [hnum0] at hnum
  obtain ⟨d, hdes, hre⟩ := recreate_eq cap p hAp
  rw [hnum] at hre
  have hnum1 : (createPool cap d).m_uiNumOfElements = 1 := by rw [hre]
  have hi0 : i = 0 := by
    have hhead := head_freeStack_createPool_ctor (T := T) cap h1
    rw [hfs] at hhead
    exact Option.some.inj (Option.some.inj hhead)
  subst hi0
  refine ⟨p, d, hrun, hdes, hre, hnum1, hnum0, ?_, ?_⟩
  · intro heq
    rw [heq, hnum0] at hnum1
    cases hnum1
  · intro hAr
    have hcount := hAr.2.2.2.2.2.2.1
    rw [hnum1, hre, createPool_ctor] at hcount
    simp [liveSlots, List.count_replicate] at hcount

/-- C13, evaluated at the capacity of the header (1000).  After createPool,
allocateObject(7), destroyPool, createPool the pool is the first-time one
except that live_count reads 1, not 0: it differs from the state of a
first-time createPool and is not `Active`.  After createPool, 1000
allocations, destroyPool, createPool, live_count reads 1000 with no slot
occupied, and the first allocateObject runs into the assertion, where the
first-time pool returns slot 0. -/
theorem recreate_does_not_reset_live_count :
    (∃ p d, allocateObject 1000 (createPool 1000 (MemPool_ctor : MemPool Nat)) 7
        = .ok (some 0, p) ∧
      destroyPool 1000 p = .ok d ∧
      createPool 1000 d =
        { createPool 1000 (MemPool_ctor : MemPool Nat) with m_uiNumOfElements := 1 } ∧
      (createPool 1000 d).m_uiNumOfElements = 1 ∧
      (createPool 1000 (MemPool_ctor : MemPool Nat)).m_uiNumOfElements = 0 ∧
      createPool 1000 d ≠ createPool 1000 (MemPool_ctor : MemPool Nat) ∧
      ¬ Active 1000 (createPool 1000 d)) ∧
    (∃ tr r p d, runOps 1000 (createPool 1000 (MemPool_ctor : MemPool Nat))
        (List.replicate 1000 (.alloc 7)) = .ok tr ∧
      tr.getLast? = some (r, p) ∧ destroyPool 1000 p = .ok d ∧
      (createPool 1000 d).m_uiNumOfElements = 1000 ∧
      liveSlots (createPool 1000 d) = 0 ∧
      allocateObject 1000 (createPool 1000 d) 7 = .error .assertion) :=
  ⟨recreate_one 1000 7 (by decide) (by decide),
   recreate_full_asserts 1000 7 (by decide) (by decide)⟩

/-! ## No underflow, no overflow of the free stack -/

/-- Every `Active` state is `StackSafe`. -/
theorem Active.stackSafe {T : Type} {cap : Nat} {p : MemPool T} (hA : Active cap p) :
    StackSafe cap p := by
  have hlen := hA.length_freeStack
  have hsp := hA.2.2.2.2.2.2.2.1
  have hblk := hA.2.2.2.2.1
  refine ⟨?_, by omega, by omega, ?_, ?_⟩
  · constructor
    · intro h
      rw [h] at hlen
      simp at hlen
      omega
    · intro h
      apply List.eq_nil_of_length_eq_zero
      omega
  · intro hne
    have hlt : p.m_uiNumOfElements < cap := Nat.lt_of_le_of_ne hA.counter_le hne
    refine ⟨by omega, ?_⟩
    cases hfs : freeStack p with
    | nil =>
      rw [hfs] at hlen
      simp at hlen
      omega
    | cons c rest =>
      obtain ⟨i, hi, hci, _⟩ := hA.2.2.2.2.2.2.2.2.2.1 c (by rw [hfs]; simp)
      subst hci
      refine ⟨i, rfl, hi, ?_⟩
      intro v
      obtain ⟨k, rest2, q, hfs2, _, _, hrun, _⟩ := allocateObject_active cap p v hA hlt
      rw [hfs, List.cons.injEq] at hfs2
      have hki : i = k := Option.some.inj hfs2.1
      subst hki
      exact ⟨q, hrun⟩
  · intro i hi
    rcases hA.occupied_cases i hi with hocc | hocc
    · obtain ⟨q, hrun, hAq, _, _, _, _, _, hspq⟩ :=
        deallocateObject_active_occupied cap p i hA hocc
      have hq := hAq.2.2.2.2.2.2.2.1
      exact ⟨⟨q, hrun⟩, fun _ => by omega⟩
    · refine ⟨⟨p, deallocateObject_free p i hocc⟩, ?_⟩
      intro h
      rw [hocc] at h
      cases h

/-- C17: in every state reached from a fresh createPool by allocateObject
calls made with live_count < capacity and deallocateObject calls on in-range
handles (or the null pointer), the fresh state included, the free stack is
empty exactly when live_count == capacity and never holds more than capacity
entries; whenever the exhaustion guard of allocateObject passes, the pop reads
an in-range index (no underflow), and the push of deallocateObject stays
inside the block (no overflow). -/
theorem free_stack_in_bounds {T : Type} [Inhabited T] (cap : Nat) (ops : List (Op T))
    (hmax : cap ≤ INT_MAX) (hops : ∀ op ∈ ops, isAllocDealloc op = true)
    (hresp : respects cap (createPool cap MemPool_ctor) ops = true) :
    StackSafe cap (createPool cap (MemPool_ctor : MemPool T)) ∧
    ∃ tr, runOps cap (createPool cap MemPool_ctor) ops = .ok tr ∧ tr.length = ops.length ∧
      ∀ rq ∈ tr, StackSafe cap rq.2 := by
  have hA0 := Active_createPool_ctor (T := T) cap hmax
  obtain ⟨tr, hrun, hlen, hall⟩ :=
    runOps_active cap ops (createPool cap MemPool_ctor) hA0 hops hresp
  exact ⟨hA0.stackSafe, tr, hrun, hlen, fun rq hrq => (hall rq hrq).stackSafe⟩

/-- C17 at capacity 3: fill the pool, free slot 1 twice, allocate again. -/
theorem free_stack_in_bounds_witness :
    3 ≤ INT_MAX ∧
    (StackSafe 3 (createPool 3 (MemPool_ctor : MemPool Nat)) ∧
    ∃ tr, runOps 3 (createPool 3 (MemPool_ctor : MemPool Nat))
        [.alloc 7, .alloc_default, .alloc 9, .dealloc (some 1), .dealloc (some 1), .alloc 5]
          = .ok tr ∧
      tr.length = 6 ∧ ∀ rq ∈ tr, StackSafe 3 rq.2) :=
  ⟨by decide, free_stack_in_bounds 3
    [.alloc 7, .alloc_default, .alloc 9, .dealloc (some 1), .dealloc (some 1), .alloc 5]
    (by decide) (by decide) (by decide)⟩

/-! ## `destroyPool` on a re-created pool -/

/-- Create a pool of capacity `cap ≥ 1`, allocate once, destroy it and create
it again: the pool is initialised, and a second `destroyPool` hands `free` the
pointer `base + cap - (cap - 1)`, one cell above the base of the index block.
Every call of the sequence is made as `callPre` asks, and the sequence ends in
the fault of the invalid `free`. -/
theorem destroyPool_after_recreate {T : Type} [Inhabited T] (cap : Nat) (v : T)
    (h1 : 1 ≤ cap) (hmax : cap ≤ INT_MAX) :
    (∃ p d, allocateObject cap (createPool cap (MemPool_ctor : MemPool T)) v
        = .ok (some 0, p) ∧
      destroyPool cap p = .ok d ∧
      (createPool cap d).m_bPoolInitialized = true ∧
      (createPool cap d).m_uipFreeAdrIdx = cap ∧
      (cap + UINT_MOD - (createPool cap d).m_uiNumOfElements % UINT_MOD) % UINT_MOD
        = cap - 1 ∧
      destroyPool cap (createPool cap d) = .error .invalidFree) ∧
    respects cap (MemPool_ctor : MemPool T)
      [.create, .alloc v, .destroy, .create, .destroy] = true ∧
    runOps cap (MemPool_ctor : MemPool T)
      [.create, .alloc v, .destroy, .create, .destroy] = .error .invalidFree := by
  obtain ⟨p, d, hrun, hdes, hre, hnum, hnum0, _, _⟩ := recreate_one cap v h1 hmax
  have hflag : (createPool cap d).m_bPoolInitialized = true := by
    rw [hre, createPool_ctor]
  have hsp : (createPool cap d).m_uipFreeAdrIdx = cap := by
    rw [hre, createPool_ctor]
  have hbase : (cap + UINT_MOD - (createPool cap d).m_uiNumOfElements % UINT_MOD) % UINT_MOD
      = cap - 1 := by
    rw [hnum]
    unfold INT_MAX at hmax
    unfold UINT_MOD
    omega
  have hfault : destroyPool cap (createPool cap d) = .error .invalidFree := by
    unfold destroyPool
    rw [if_pos hflag, if_neg]
    rw [hsp, hbase]
    omega
  refine ⟨⟨p, d, hrun, hdes, hflag, hsp, hbase, hfault⟩, ?_, ?_⟩
  · simp only [respects, step, hrun, hdes, hfault, callPre, hnum0]
    simp
    omega
  · simp only [runOps, step, hrun, hdes, hfault]

/-- C15, evaluated at the capacity of the header (1000) on the calls
createPool, allocateObject(7), destroyPool, createPool, destroyPool.  The first
four calls return and leave the pool initialised (state Active by its flag),
with the stack pointer at base + 1000 and live_count 1; the second destroyPool
then passes `free` the pointer base + 1000 - 999, which is not the base of the
block, so the call does not return an uninitialised pool: the whole sequence,
each call made as its precondition asks, ends in the fault of an invalid
`free`.  On a pool that is not initialised destroyPool changes nothing, as the
claim says. -/
theorem destroyPool_faults_on_recreated_pool :
    ((∃ p d, allocateObject 1000 (createPool 1000 (MemPool_ctor : MemPool Nat)) 7
        = .ok (some 0, p) ∧
      destroyPool 1000 p = .ok d ∧
      (createPool 1000 d).m_bPoolInitialized = true ∧
      (createPool 1000 d).m_uipFreeAdrIdx = 1000 ∧
      (1000 + UINT_MOD - (createPool 1000 d).m_uiNumOfElements % UINT_MOD) % UINT_MOD
        = 1000 - 1 ∧
      destroyPool 1000 (createPool 1000 d) = .error .invalidFree) ∧
    respects 1000 (MemPool_ctor : MemPool Nat)
      [.create, .alloc 7, .destroy, .create, .destroy] = true ∧
    runOps 1000 (MemPool_ctor : MemPool Nat)
      [.create, .alloc 7, .destroy, .create, .destroy] = .error .invalidFree) ∧
    destroyPool 1000 (MemPool_ctor : MemPool Nat) = .ok MemPool_ctor :=
  ⟨destroyPool_after_recreate 1000 7 (by decide) (by decide), rfl⟩
